import Mathlib

/-!
Shallow embedding of the pluralization and locale-resolution engine of the
onwello i18n repository: the RTL utilities in src/utils/rtl.utils.ts, the RTL
pluralization utilities (ARABIC_NUMERAL_CONFIG, RTL_PLURAL_CONFIGS,
getPluralConfig, formatHebrewNumber, formatNumberForLocale,
getPluralCategory, applyDirectionalMarkers, handleMixedContent,
processRTLPluralization, validatePluralRule), and the pluralization part of
src/services/translation.service.ts (getTranslationValue, interpolateParams,
getPluralTranslation, translatePluralWithOptions, translatePlural).

Modelling conventions:
* JavaScript strings are modelled as Lean String values; every character
  involved lies in the Basic Multilingual Plane, so UTF-16 versus scalar
  values makes no observable difference here.
* Counts are modelled as Int; the claims quantify over integer counts.
* JavaScript objects used as maps are modelled as association lists with
  first-key-wins lookup; object spread followed by property assignment is
  modelled by setParam and spreadInto.
* Code that can throw is modelled in the Except String monad; a returned
  Except.error value models a thrown exception.
* Intl.NumberFormat is platform library code, not part of the repository;
  it is abstracted as a total function parameter named intl. Its try/catch
  decimal fallback cannot fire for a total function, and no claim below
  depends on its output: every concrete input uses the Hebrew branch of
  formatNumberForLocale, which does not consult it.
* Recursive string scanners are written with an explicit Nat fuel equal to
  the length of the scanned character list; each step consumes at least one
  character, so the fuel never runs out on the initial call and the
  functions compute by kernel reduction.
* Literal brace characters in strings and characters are written with the
  escapes for code points 7B and 7D.
-/

namespace I18n

/-- Subset of JavaScript values that can appear in interpolation parameter
maps: undefined, null, strings, numbers and plain objects. -/
inductive JsVal where
  | undef : JsVal
  | null : JsVal
  | str : String → JsVal
  | num : Int → JsVal
  | obj : List (String × JsVal) → JsVal

/-- First-key-wins lookup in an association list, modelling JavaScript
object property access on objects with unique keys. -/
def lookupAssoc {α : Type} : List (String × α) → String → Option α
  | [], _ => none
  | (k, v) :: rest, key => if k = key then some v else lookupAssoc rest key

/-- Models the JavaScript String(value) conversion for the modelled value
subset. -/
def jsString : JsVal → String
  | JsVal.undef => "undefined"
  | JsVal.null => "null"
  | JsVal.str s => s
  | JsVal.num n => toString n
  | JsVal.obj _ => "[object Object]"

/-- Models property assignment on an object copy: if the key is present its
value is replaced in place, otherwise the pair is appended in insertion
order. -/
def setParam (l : List (String × JsVal)) (k : String) (v : JsVal) : List (String × JsVal) :=
  if (lookupAssoc l k).isSome then l.map (fun p => if p.1 = k then (k, v) else p)
  else l ++ [(k, v)]

/-- Models the object literal that spreads l over base: each pair of l is
assigned, in order, onto a copy of base. -/
def spreadInto (base l : List (String × JsVal)) : List (String × JsVal) :=
  l.foldl (fun acc p => setParam acc p.1 p.2) base

/-- Character class of the regex in cleanDirectionalMarkers of rtl.utils.ts:
the eleven bidirectional control characters 200E, 200F, 202A to 202E and
2066 to 2069. -/
def isBidiMarkerChar (c : Char) : Bool :=
  c = '\u200E' || c = '\u200F' || c = '\u202A' || c = '\u202B' || c = '\u202C' ||
  c = '\u202D' || c = '\u202E' || c = '\u2066' || c = '\u2067' || c = '\u2068' || c = '\u2069'

/-- Character class of RTL_REGEX in rtl.utils.ts: the Hebrew and Arabic
script blocks together with exactly six individually listed control
characters (200F, 202B, 202E, 2067, 2068, 2069). -/
def isRTLChar (c : Char) : Bool :=
  (0x0590 ≤ c.toNat && c.toNat ≤ 0x05FF) ||
  (0x0600 ≤ c.toNat && c.toNat ≤ 0x06FF) ||
  (0x0750 ≤ c.toNat && c.toNat ≤ 0x077F) ||
  (0x08A0 ≤ c.toNat && c.toNat ≤ 0x08FF) ||
  (0xFB50 ≤ c.toNat && c.toNat ≤ 0xFDFF) ||
  (0xFE70 ≤ c.toNat && c.toNat ≤ 0xFEFF) ||
  c = '\u200F' || c = '\u202B' || c = '\u202E' ||
  c = '\u2067' || c = '\u2068' || c = '\u2069'

/-- Embeds containsRTLText of rtl.utils.ts: false on the empty string,
otherwise a test of RTL_REGEX, that is, some character matches. -/
def containsRTLText (text : String) : Bool :=
  if text = "" then false else text.data.any isRTLChar

/-- Embeds wrapWithDirectionalMarkers of rtl.utils.ts. The direction string
is one of ltr, rtl or auto by the TypeScript union type; any other value is
unreachable and returned unchanged. -/
def wrapWithDirectionalMarkers (text : String) (direction : String) : String :=
  if direction = "auto" ∨ text = "" then text
  else if direction = "ltr" then "\u200E" ++ text
  else if direction = "rtl" then "\u200F" ++ text
  else text

/-- Embeds cleanDirectionalMarkers of rtl.utils.ts: removes every
bidirectional control character of the marker class. -/
def cleanDirectionalMarkers (text : String) : String :=
  if text = "" then text else String.mk (text.data.filter (fun c => !isBidiMarkerChar c))

/-- Value-level lookup for the Hebrew numeral table. -/
def lookupIntAssoc : List (Int × String) → Int → Option String
  | [], _ => none
  | (k, v) :: rest, key => if k = key then some v else lookupIntAssoc rest key

/-- The hebrewNumerals object literal inside formatHebrewNumber, copied
entry by entry from the source: 0 maps to the empty string, 1 to 99 are
hard-coded gematria strings with the special-cased pairs for 15 and 16, and
100, 200, 300, 400 are single letters. -/
def HEBREW_NUMERALS : List (Int × String) := [
  (0, ""), (1, "א"), (2, "ב"), (3, "ג"), (4, "ד"),
  (5, "ה"), (6, "ו"), (7, "ז"), (8, "ח"), (9, "ט"),
  (10, "י"), (11, "יא"), (12, "יב"), (13, "יג"), (14, "יד"),
  (15, "טו"), (16, "טז"), (17, "יז"), (18, "יח"), (19, "יט"),
  (20, "כ"), (21, "כא"), (22, "כב"), (23, "כג"), (24, "כד"),
  (25, "כה"), (26, "כו"), (27, "כז"), (28, "כח"), (29, "כט"),
  (30, "ל"), (31, "לא"), (32, "לב"), (33, "לג"), (34, "לד"),
  (35, "לה"), (36, "לו"), (37, "לז"), (38, "לח"), (39, "לט"),
  (40, "מ"), (41, "מא"), (42, "מב"), (43, "מג"), (44, "מד"),
  (45, "מה"), (46, "מו"), (47, "מז"), (48, "מח"), (49, "מט"),
  (50, "נ"), (51, "נא"), (52, "נב"), (53, "נג"), (54, "נד"),
  (55, "נה"), (56, "נו"), (57, "נז"), (58, "נח"), (59, "נט"),
  (60, "ס"), (61, "סא"), (62, "סב"), (63, "סג"), (64, "סד"),
  (65, "סה"), (66, "סו"), (67, "סז"), (68, "סח"), (69, "סט"),
  (70, "ע"), (71, "עא"), (72, "עב"), (73, "עג"), (74, "עד"),
  (75, "עה"), (76, "עו"), (77, "עז"), (78, "עח"), (79, "עט"),
  (80, "פ"), (81, "פא"), (82, "פב"), (83, "פג"), (84, "פד"),
  (85, "פה"), (86, "פו"), (87, "פז"), (88, "פח"), (89, "פט"),
  (90, "צ"), (91, "צא"), (92, "צב"), (93, "צג"), (94, "צד"),
  (95, "צה"), (96, "צו"), (97, "צז"), (98, "צח"), (99, "צט"),
  (100, "ק"), (200, "ר"), (300, "ש"), (400, "ת")]

/-- Lookup in the hebrewNumerals table; none models an undefined property
read. -/
def hebrewNumerals (n : Int) : Option String := lookupIntAssoc HEBREW_NUMERALS n

/-- Models the JavaScript expression o or-else d where o is a possibly
undefined string: undefined and the falsy empty string both fall back. -/
def jsOrString (o : Option String) (d : String) : String :=
  match o with
  | some s => if s = "" then d else s
  | none => d

/-- Embeds formatHebrewNumber of the RTL pluralization utilities: 0 renders
as the digit 0; values up to 99 use the table with a decimal fallback on a
miss; values of 100 to 999 concatenate the hundreds letter (empty on a
table miss) with the table rendering of the remainder and fall back to the
decimal string only if the concatenation is empty; values beyond 999 render
as the decimal string. Division and remainder agree with Math.floor and the
JavaScript remainder on this all-positive range. -/
def formatHebrewNumber (num : Int) : String :=
  if num = 0 then "0"
  else if num ≤ 99 then jsOrString (hebrewNumerals num) (toString num)
  else if num ≤ 999 then
    let hundreds := num / 100
    let remainder := num % 100
    let result :=
      (if hundreds > 0 then jsOrString (hebrewNumerals (hundreds * 100)) "" else "") ++
      (if remainder > 0 then jsOrString (hebrewNumerals remainder) "" else "")
    if result = "" then toString num else result
  else toString num

/-- Plural rule closure shared by the ar and ar-MA entries of
RTL_PLURAL_CONFIGS (the source repeats the identical function literal in
both entries). -/
def arabicFamilyPluralFunction (count : Int) : String :=
  if count = 0 then "zero"
  else if count = 1 then "one"
  else if count = 2 then "two"
  else if 3 ≤ count ∧ count ≤ 10 then "few"
  else if 11 ≤ count ∧ count ≤ 99 then "many"
  else "other"

/-- Ordinal closure repeated verbatim in the ar, ar-MA and he entries of
RTL_PLURAL_CONFIGS. -/
def ordinalOneTwoFewFunction (count : Int) : String :=
  if count = 1 then "one"
  else if count = 2 then "two"
  else if 3 ≤ count ∧ count ≤ 10 then "few"
  else "other"

/-- Plural rule of the he entry of RTL_PLURAL_CONFIGS. -/
def hebrewPluralFunction (count : Int) : String :=
  if count = 1 then "one"
  else if count = 2 then "two"
  else if 3 ≤ count ∧ count ≤ 10 then "few"
  else if 11 ≤ count then "many"
  else "other"

/-- Plural and ordinal rule repeated verbatim in the fa and ur entries of
RTL_PLURAL_CONFIGS. -/
def persianUrduPluralFunction (count : Int) : String :=
  if count = 1 then "one" else "other"

/-- Default English-like rule created inline by getPluralConfig when both
lookups miss. -/
def defaultPluralFunction (count : Int) : String :=
  if count = 1 then "one" else "other"

/-- Per-locale configuration record of the RTL pluralization utilities. The
numberFormatOptions field only feeds Intl.NumberFormat and is absorbed into
the abstract intl parameter. -/
structure LocalePluralConfig where
  numberingSystem : String
  direction : String
  useDirectionalMarkers : Bool
  pluralFunction : Int → String
  ordinalFunction : Option (Int → String)

/-- The RTL_PLURAL_CONFIGS table, entry for entry. -/
def RTL_PLURAL_CONFIGS : List (String × LocalePluralConfig) := [
  ("ar", { numberingSystem := "arab", direction := "rtl", useDirectionalMarkers := true,
           pluralFunction := arabicFamilyPluralFunction,
           ordinalFunction := some ordinalOneTwoFewFunction }),
  ("ar-MA", { numberingSystem := "latn", direction := "rtl", useDirectionalMarkers := true,
              pluralFunction := arabicFamilyPluralFunction,
              ordinalFunction := some ordinalOneTwoFewFunction }),
  ("he", { numberingSystem := "hebr", direction := "rtl", useDirectionalMarkers := true,
           pluralFunction := hebrewPluralFunction,
           ordinalFunction := some ordinalOneTwoFewFunction }),
  ("fa", { numberingSystem := "arab", direction := "rtl", useDirectionalMarkers := true,
           pluralFunction := persianUrduPluralFunction,
           ordinalFunction := some persianUrduPluralFunction }),
  ("ur", { numberingSystem := "arab", direction := "rtl", useDirectionalMarkers := true,
           pluralFunction := persianUrduPluralFunction,
           ordinalFunction := some persianUrduPluralFunction })]

/-- Default English-like configuration built inline by getPluralConfig. -/
def defaultPluralConfig : LocalePluralConfig :=
  { numberingSystem := "latn", direction := "ltr", useDirectionalMarkers := false,
    pluralFunction := defaultPluralFunction, ordinalFunction := none }

/-- Models the JavaScript expression locale.split(dash)[0]: the characters
before the first dash, or the whole string when there is none. -/
def baseLocale (locale : String) : String :=
  String.mk (locale.data.takeWhile (fun c => c ≠ '-'))

/-- Embeds getPluralConfig: exact locale lookup, then base language lookup,
then the default English-like configuration. -/
def getPluralConfig (locale : String) : LocalePluralConfig :=
  match lookupAssoc RTL_PLURAL_CONFIGS locale with
  | some config => config
  | none =>
    match lookupAssoc RTL_PLURAL_CONFIGS (baseLocale locale) with
    | some config => config
    | none => defaultPluralConfig

/-- Embeds getPluralCategory. -/
def getPluralCategory (count : Int) (locale : String) : String :=
  (getPluralConfig locale).pluralFunction count

/-- Models String.prototype.startsWith on the character lists. -/
def strStartsWith (s pre : String) : Bool :=
  pre.data.isPrefixOf s.data

/-- Embeds formatNumberForLocale: Hebrew locales take the letter-numeral
path; every other locale delegates to Intl.NumberFormat, abstracted as the
total function intl (which therefore also covers the try/catch decimal
fallback of the source). -/
def formatNumberForLocale (intl : Int → String → String) (num : Int) (locale : String) : String :=
  if strStartsWith locale "he" then formatHebrewNumber num else intl num locale

/-- Embeds applyDirectionalMarkers of the RTL pluralization utilities:
wraps the text in the RLE and PDF control characters 202B and 202C when the
locale configuration is RTL and uses markers. -/
def applyDirectionalMarkers (text : String) (locale : String) : String :=
  let config := getPluralConfig locale
  if config.useDirectionalMarkers = false ∨ config.direction ≠ "rtl" then text
  else "\u202B" ++ text ++ "\u202C"

/-- Fuel-driven replacement for the regex that wraps every maximal run of
ASCII digits in the LRE and PDF control characters 202A and 202C. Each step
consumes at least one character, so fuel equal to the list length never
runs out. -/
def wrapAsciiDigitRunsAux : Nat → List Char → List Char
  | _, [] => []
  | 0, cs => cs
  | fuel + 1, c :: cs =>
    if c.isDigit then
      '\u202A' :: c :: (cs.takeWhile Char.isDigit ++
        '\u202C' :: wrapAsciiDigitRunsAux fuel (cs.dropWhile Char.isDigit))
    else c :: wrapAsciiDigitRunsAux fuel cs

/-- Wraps every maximal ASCII digit run in LRE and PDF, as the global digit
regex replacement in handleMixedContent does (the regex digit class is
ASCII-only without the unicode flag). -/
def wrapAsciiDigitRuns (cs : List Char) : List Char :=
  wrapAsciiDigitRunsAux cs.length cs

/-- Embeds handleMixedContent of the RTL pluralization utilities. -/
def handleMixedContent (text : String) (locale : String) : String :=
  if (getPluralConfig locale).direction ≠ "rtl" then text
  else String.mk (wrapAsciiDigitRuns text.data)

/-- The categoryKeys alias table of processRTLPluralization, with the
or-else fallback to the other alias list for unknown category strings. -/
def categoryKeys (category : String) : List String :=
  if category = "zero" then ["0", "zero"]
  else if category = "one" then ["1", "one"]
  else if category = "two" then ["2", "two"]
  else if category = "few" then ["few"]
  else if category = "many" then ["many"]
  else if category = "other" then ["other"]
  else ["other"]

/-- Truthiness of a property read on a string-valued object: present and
not the empty string. -/
def truthyLookup (rule : List (String × String)) (k : String) : Bool :=
  match lookupAssoc rule k with
  | some v => v != ""
  | none => false

/-- Template selection loop of processRTLPluralization: the template starts
as the other property (possibly undefined) and the first alias key with a
truthy value overrides it. -/
def chooseTemplate (rule : List (String × String)) (keys : List String) : Option String :=
  match keys.find? (fun k => truthyLookup rule k) with
  | some k => lookupAssoc rule k
  | none => lookupAssoc rule "other"

/-- Fuel-driven global literal replacement, modelling the global regex
replacement of an escaped literal pattern. The patterns built by the engine
are never empty, and parameter keys are assumed free of regex
metacharacters (the claims that quantify over parameter maps carry a
word-character hypothesis on the keys); dollar patterns in replacement
values are outside the modelled value universe. -/
def replaceAllAux (pat rep : List Char) : Nat → List Char → List Char
  | _, [] => []
  | 0, cs => cs
  | fuel + 1, c :: cs =>
    if pat.isPrefixOf (c :: cs) then
      rep ++ replaceAllAux pat rep fuel ((c :: cs).drop pat.length)
    else c :: replaceAllAux pat rep fuel cs

/-- Global literal replacement on strings. -/
def jsReplaceAll (s pat rep : String) : String :=
  String.mk (replaceAllAux pat.data rep.data s.data.length s.data)

/-- Interpolation loop of processRTLPluralization: for each entry of the
parameter object, in insertion order, globally replace the dollar-brace
placeholder carrying that key by the String conversion of the value. -/
def interpolateEntries (entries : List (String × JsVal)) (template : String) : String :=
  entries.foldl (fun acc p => jsReplaceAll acc ("$\x7b" ++ p.1 ++ "\x7d") (jsString p.2)) template

/-- Parameter construction of processRTLPluralization: spread the caller
parameters, then always assign the count key to the locale-formatted
numeral string. -/
def buildFormattedParams (intl : Int → String → String) (params : List (String × JsVal))
    (count : Int) (locale : String) : List (String × JsVal) :=
  setParam params "count" (JsVal.str (formatNumberForLocale intl count locale))

/-- RTL metadata of a PluralizationResult. -/
structure RTLInfo where
  isRTL : Bool
  direction : String
  script : Option String

/-- Number formatting metadata of a PluralizationResult. -/
structure NumberFormatInfo where
  originalNumber : Int
  formattedNumber : String
  numberingSystem : String

/-- Result record of the pluralization engine. -/
structure PluralizationResult where
  text : String
  category : String
  rtl : Option RTLInfo
  numberFormat : Option NumberFormatInfo

/-- Error message modelling the TypeError thrown when the undefined
template is asked for its replace method. -/
def tyErrUndefinedReplace : String :=
  "TypeError: Cannot read properties of undefined (reading replace)"

/-- Embeds processRTLPluralization. When the selected template is undefined
(no truthy alias key and no other property at all) the interpolation loop
calls replace on undefined, which throws; this is the single throw site of
the function in the modelled universe. The key argument of the source is
unused there as well. -/
def processRTLPluralization (intl : Int → String → String) (key : String) (count : Int)
    (locale : String) (pluralRule : List (String × String)) (params : List (String × JsVal))
    (useDirectionalMarkers : Bool) (customRule : Option (Int → String)) :
    Except String PluralizationResult :=
  let config := getPluralConfig locale
  let category :=
    match customRule with
    | some rule => rule count
    | none => getPluralCategory count locale
  let keys := categoryKeys category
  let template := chooseTemplate pluralRule keys
  let formattedParams := buildFormattedParams intl params count locale
  match template with
  | none => Except.error tyErrUndefinedReplace
  | some t =>
    let result := interpolateEntries formattedParams t
    let result2 :=
      if config.direction = "rtl" ∧ useDirectionalMarkers = true then
        handleMixedContent result locale
      else result
    let finalText :=
      if useDirectionalMarkers = true then applyDirectionalMarkers result2 locale
      else result2
    Except.ok {
      text := finalText
      category := category
      rtl := some { isRTL := config.direction == "rtl", direction := config.direction,
                    script := some config.numberingSystem }
      numberFormat := some { originalNumber := count,
                             formattedNumber := formatNumberForLocale intl count locale,
                             numberingSystem := config.numberingSystem } }

/-- The validCategories list of validatePluralRule. -/
def validCategories : List String :=
  ["zero", "one", "two", "few", "many", "other", "0", "1", "2"]

/-- Embeds validatePluralRule: the other property must be truthy and every
key must be a valid category key. -/
def validatePluralRule (rule : List (String × String)) : Bool :=
  if truthyLookup rule "other" = false then false
  else rule.all (fun p => validCategories.contains p.1)

/-- A stored translation entry: a plain template string or a category map.
Entries of other JSON shapes (numbers, arrays, null) are outside the data
model of the spec and of every claim. -/
inductive TransEntry where
  | str : String → TransEntry
  | obj : List (String × String) → TransEntry

/-- JavaScript truthiness of a stored entry: objects are truthy, strings
are truthy unless empty. -/
def isTruthyEntry : TransEntry → Bool
  | TransEntry.str s => s != ""
  | TransEntry.obj _ => true

/-- Pluralization block of the service configuration, with the defaults
installed by the service constructor. -/
structure PluralizationSettings where
  enabled : Bool := true
  formatNumbers : Bool := true
  useDirectionalMarkers : Bool := true
  validatePluralRules : Bool := true

/-- Subset of the service configuration that the pluralization path reads,
with the constructor defaults. The interpolation delimiters are fixed at
their defaults (dollar-brace prefix and brace suffix). -/
structure ServiceConfig where
  defaultLocale : String := "en"
  fallbackStrategy : String := "default"
  pluralization : PluralizationSettings := {}

/-- The configuration produced by the constructor defaults alone. -/
def defaultConfig : ServiceConfig := {}

/-- In-memory translation store: locale to key to entry. -/
abbrev TranslationStore := List (String × List (String × TransEntry))

/-- Message of the error thrown under the throw fallback strategy. -/
def keyNotFoundMessage (key locale : String) : String :=
  "Translation key not found: " ++ key ++ " (locale: " ++ locale ++ ")"

/-- Fallback strategy switch at the end of getTranslationValue: the key and
default strategies return the key as a plain string entry, the throw
strategy throws. -/
def fallbackStrategyResult (cfg : ServiceConfig) (key locale : String) :
    Except String TransEntry :=
  if cfg.fallbackStrategy = "key" then Except.ok (TransEntry.str key)
  else if cfg.fallbackStrategy = "throw" then Except.error (keyNotFoundMessage key locale)
  else Except.ok (TransEntry.str key)

/-- Second half of getTranslationValue: try the default locale when
fallback is allowed and the requested locale differs, then apply the
strategy switch. -/
def translationFallbackStep (cfg : ServiceConfig) (store : TranslationStore)
    (key locale : String) (useFallback : Bool) : Except String TransEntry :=
  if useFallback = true ∧ locale ≠ cfg.defaultLocale then
    match (lookupAssoc store cfg.defaultLocale).bind (fun m => lookupAssoc m key) with
    | some e =>
      if isTruthyEntry e then Except.ok e else fallbackStrategyResult cfg key locale
    | none => fallbackStrategyResult cfg key locale
  else fallbackStrategyResult cfg key locale

/-- Embeds getTranslationValue of the translation service (statistics and
logging omitted; they do not influence the returned value). A falsy entry
(the empty string) falls through exactly as in the source truthiness
test. -/
def getTranslationValue (cfg : ServiceConfig) (store : TranslationStore)
    (key locale : String) (useFallback : Bool) : Except String TransEntry :=
  match (lookupAssoc store locale).bind (fun m => lookupAssoc m key) with
  | some e =>
    if isTruthyEntry e then Except.ok e
    else translationFallbackStep cfg store key locale useFallback
  | none => translationFallbackStep cfg store key locale useFallback

/-- Word character class of the regex escape w: ASCII letters, digits and
the underscore. -/
def isWordChar (c : Char) : Bool :=
  c.isAlphanum || c = '_'

/-- Tail of the dotted-path parse: after the first word run, repeatedly
consume a dot followed by a word run, and finish on the closing brace.
Returns the accumulated path segments, the matched characters (including
the closing brace) and the rest of the input. Fuel equal to the input
length suffices because every step consumes at least two characters. -/
def parseSegsAux : Nat → List String → List Char → List Char →
    Option (List String × List Char × List Char)
  | _, acc, matched, '\x7d' :: rest => some (acc, matched ++ ['\x7d'], rest)
  | fuel + 1, acc, matched, '.' :: c :: rest =>
    if isWordChar c then
      parseSegsAux fuel (acc ++ [String.mk ((c :: rest).takeWhile isWordChar)])
        (matched ++ '.' :: (c :: rest).takeWhile isWordChar)
        ((c :: rest).dropWhile isWordChar)
    else none
  | _, _, _, _ => none

/-- Parses the interior of a dollar-brace placeholder: a word run, then
dot-separated word runs, then the closing brace. Mirrors the primary
interpolation regex of interpolateParams, whose greedy word runs allow no
backtracking because neither a dot nor a closing brace is a word
character. -/
def parsePath (cs : List Char) : Option (List String × List Char × List Char) :=
  let run := cs.takeWhile isWordChar
  if run.isEmpty then none
  else parseSegsAux cs.length [String.mk run] run (cs.dropWhile isWordChar)

/-- Optional-chaining property access used by the dotted-path reduce: any
non-object base yields undefined, prototype properties being outside the
JSON value model. -/
def jsGetProp : JsVal → String → JsVal
  | JsVal.obj fields, prop => (lookupAssoc fields prop).getD JsVal.undef
  | _, _ => JsVal.undef

/-- The reduce of interpolateParams over the dotted path, starting from the
parameter object. -/
def resolvePath (params : List (String × JsVal)) (segs : List String) : JsVal :=
  segs.foldl jsGetProp (JsVal.obj params)

/-- Direct property read used by the secondary brace-only pass. -/
def lookupParam (params : List (String × JsVal)) (k : String) : JsVal :=
  (lookupAssoc params k).getD JsVal.undef

/-- Attempts the primary dollar-brace placeholder match at the current
position; on success returns the emitted characters (the String conversion
of the resolved value, or the placeholder verbatim when the path resolves
to undefined) and the rest of the input. -/
def tryMatchDollarBrace (params : List (String × JsVal)) (cs : List Char) :
    Option (List Char × List Char) :=
  match cs with
  | '$' :: '\x7b' :: rest =>
    match parsePath rest with
    | some (segs, matched, rest2) =>
      match resolvePath params segs with
      | JsVal.undef => some ('$' :: '\x7b' :: matched, rest2)
      | v => some ((jsString v).data, rest2)
    | none => none
  | _ => none

/-- Fuel-driven scanner for the primary global replacement pass: at each
position try the placeholder match, emit its output and continue after the
match, otherwise emit one character and move on, exactly as a global regex
replacement proceeds. -/
def scanDollarBraceAux (params : List (String × JsVal)) : Nat → List Char → List Char
  | _, [] => []
  | 0, cs => cs
  | fuel + 1, c :: cs =>
    match tryMatchDollarBrace params (c :: cs) with
    | some (out, rest) => out ++ scanDollarBraceAux params fuel rest
    | none => c :: scanDollarBraceAux params fuel cs

/-- Attempts the secondary single-brace placeholder match (a word run
between braces, no dots) at the current position. -/
def tryMatchBrace (params : List (String × JsVal)) (cs : List Char) :
    Option (List Char × List Char) :=
  match cs with
  | '\x7b' :: rest =>
    match rest.dropWhile isWordChar with
    | '\x7d' :: rest2 =>
      if (rest.takeWhile isWordChar).isEmpty then none
      else
        match lookupParam params (String.mk (rest.takeWhile isWordChar)) with
        | JsVal.undef => some ('\x7b' :: rest.takeWhile isWordChar ++ ['\x7d'], rest2)
        | v => some ((jsString v).data, rest2)
    | _ => none
  | _ => none

/-- Fuel-driven scanner for the secondary global replacement pass. -/
def scanBraceAux (params : List (String × JsVal)) : Nat → List Char → List Char
  | _, [] => []
  | 0, cs => cs
  | fuel + 1, c :: cs =>
    match tryMatchBrace params (c :: cs) with
    | some (out, rest) => out ++ scanBraceAux params fuel rest
    | none => c :: scanBraceAux params fuel cs

/-- Embeds interpolateParams of the translation service with the default
delimiters: the primary dotted dollar-brace pass followed by the secondary
single-brace pass on its output. -/
def interpolateParams (text : String) (params : List (String × JsVal)) : String :=
  let afterPrimary := scanDollarBraceAux params text.data.length text.data
  String.mk (scanBraceAux params afterPrimary.length afterPrimary)

/-- Fallback text of handleInvalidPluralRule and of the
handleMissingPluralTranslation helpers: the key followed by the count in
parentheses. -/
def handleInvalidPluralRule (key : String) (count : Int) : String :=
  key ++ " (" ++ toString count ++ ")"

/-- The object literal spreading the caller parameters over a count
property holding the raw numeric count (string-entry branch of
getPluralTranslation). -/
def mergeCountParams (count : Int) (params : List (String × JsVal)) :
    List (String × JsVal) :=
  spreadInto [("count", JsVal.num count)] params

/-- Embeds getPluralTranslation of the translation service. The
formatNumbers and ordinal arguments are accepted and never read, and the
useDirectionalMarkers argument is shadowed by the configuration value,
exactly as in the source; the final missing-translation branch of the
source is unreachable because getTranslationValue never returns a
non-string non-object value in the modelled universe. -/
def getPluralTranslation (cfg : ServiceConfig) (intl : Int → String → String)
    (store : TranslationStore) (key : String) (count : Int) (locale : String)
    (params : List (String × JsVal)) (formatNumbers : Bool)
    (useDirectionalMarkers : Bool) (ordinal : Bool) : Except String String := do
  let translation ← getTranslationValue cfg store key locale true
  match translation with
  | TransEntry.str s => pure (interpolateParams s (mergeCountParams count params))
  | TransEntry.obj rule =>
    if cfg.pluralization.validatePluralRules = true ∧ validatePluralRule rule = false then
      pure (handleInvalidPluralRule key count)
    else do
      let result ← processRTLPluralization intl key count locale rule params
        cfg.pluralization.useDirectionalMarkers none
      pure result.text

/-- Options record of translatePluralWithOptions; absent fields model
undefined option properties that take the destructuring defaults. -/
structure PluralizationOptions where
  count : Int
  locale : Option String := none
  params : List (String × JsVal) := []
  formatNumbers : Option Bool := none
  useDirectionalMarkers : Option Bool := none
  ordinal : Option Bool := none

/-- Embeds translatePluralWithOptions (statistics and the per-call cache
omitted: on a fresh service the cache lookup always misses and the cached
value equals the computed one). -/
def translatePluralWithOptions (cfg : ServiceConfig) (intl : Int → String → String)
    (store : TranslationStore) (key : String) (options : PluralizationOptions) :
    Except String String :=
  let count := options.count
  let locale := options.locale.getD cfg.defaultLocale
  let params := options.params
  let formatNumbers := options.formatNumbers.getD true
  let useDirectionalMarkers := options.useDirectionalMarkers.getD true
  let ordinal := options.ordinal.getD false
  if cfg.pluralization.enabled = false then
    Except.ok (key ++ " (" ++ toString count ++ ")")
  else
    getPluralTranslation cfg intl store key count locale params formatNumbers
      useDirectionalMarkers ordinal

/-- Embeds translatePlural: delegates to translatePluralWithOptions with
the count, locale and params options. -/
def translatePlural (cfg : ServiceConfig) (intl : Int → String → String)
    (store : TranslationStore) (key : String) (count : Int) (locale : String)
    (params : List (String × JsVal)) : Except String String :=
  translatePluralWithOptions cfg intl store key
    { count := count, locale := some locale, params := params }

/-- Concrete stand-in for Intl.NumberFormat used by closed statements whose
evaluation never reaches it (they all use Hebrew locales or error paths):
plain decimal rendering. -/
def intlDecimalStub (num : Int) (locale : String) : String :=
  let _ := locale
  toString num

/-- Character rendering of the tail of a dotted path: every further
segment is preceded by a dot. Spec-side helper for stating claims about
placeholders. -/
def renderTail : List String → List Char
  | [] => []
  | s :: tl => '.' :: s.data ++ renderTail tl

/-- Character rendering of a dotted path. -/
def renderDotted : List String → List Char
  | [] => []
  | s :: tl => s.data ++ renderTail tl

/-- Character list of a dollar-brace placeholder carrying the given dotted
path. -/
def dollarChunk (segs : List String) : List Char :=
  '$' :: '\x7b' :: renderDotted segs ++ ['\x7d']

/-- String form of a dollar-brace placeholder carrying the given dotted
path. -/
def placeholderString (segs : List String) : String :=
  String.mk (dollarChunk segs)

/-- The primary scanner at its canonical fuel (the length of the input). -/
def scanDollarBraceFull (params : List (String × JsVal)) (cs : List Char) : List Char :=
  scanDollarBraceAux params cs.length cs

/-- The secondary scanner at its canonical fuel. -/
def scanBraceFull (params : List (String × JsVal)) (cs : List Char) : List Char :=
  scanBraceAux params cs.length cs

/-- Continuation of tryMatchDollarBrace after the leading dollar and brace,
as a function of the parse result, for stepwise reasoning about the primary
scanner. -/
def dollarStep (params : List (String × JsVal))
    (pp : Option (List String × List Char × List Char)) :
    Option (List Char × List Char) :=
  match pp with
  | some (segs, matched, rest2) =>
    match resolvePath params segs with
    | JsVal.undef => some ('$' :: '\x7b' :: matched, rest2)
    | v => some ((jsString v).data, rest2)
  | none => none

/-- Continuation of tryMatchBrace after the leading brace, as a function of
the word run and of the input remaining after it. -/
def braceStep (params : List (String × JsVal)) (run dw : List Char) :
    Option (List Char × List Char) :=
  match dw with
  | '\x7d' :: rest2 =>
    if run.isEmpty then none
    else
      match lookupParam params (String.mk run) with
      | JsVal.undef => some ('\x7b' :: run ++ ['\x7d'], rest2)
      | v => some ((jsString v).data, rest2)
  | _ => none

lemma string_data_append (a b : String) : (a ++ b).data = a.data ++ b.data := by
  cases a; cases b; rfl

lemma string_mk_data (s : String) : String.mk s.data = s := by
  cases s; rfl

lemma string_eq_of_data (a b : String) (h : a.data = b.data) : a = b := by
  cases a; cases b; exact congrArg String.mk h

lemma lookupAssoc_mem {α : Type} (l : List (String × α)) (k : String) (v : α)
    (h : lookupAssoc l k = some v) : (k, v) ∈ l := by
  induction l with
  | nil => simp [lookupAssoc] at h
  | cons p rest ih =>
    obtain ⟨k0, v0⟩ := p
    by_cases hk : k0 = k
    · subst hk
      simp [lookupAssoc] at h
      simp [h]
    · simp [lookupAssoc, hk] at h
      exact List.mem_cons_of_mem _ (ih h)

/-- Claim C2 (code bug witness): with the default configuration and a key
absent from every locale, translatePlural returns the bare key, not the
documented fallback text of the key followed by the count in
parentheses. -/
theorem c2_missing_key_returns_bare_key :
    translatePlural defaultConfig intlDecimalStub [] "MISSING_KEY" 5 "en" []
      = Except.ok "MISSING_KEY"
    ∧ ("MISSING_KEY" : String) ≠ "MISSING_KEY (5)" :=
  ⟨by rfl, by decide⟩

/-- Claim C4 (code bug witness): the count interpolation parameter built by
the pluralization engine is always the locale-formatted numeral string, and
disabling formatNumbers in the options of translatePluralWithOptions does
not switch it to the raw decimal string: with locale he and count 3 the
parameter is the Hebrew letter gimel and the produced text contains it. -/
theorem c4_formatNumbers_option_ignored :
    (lookupAssoc (buildFormattedParams intlDecimalStub [] 3 "he") "count").map jsString
      = some "ג"
    ∧ translatePluralWithOptions defaultConfig intlDecimalStub
        [("he", [("K", TransEntry.obj [("other", "$\x7bcount\x7d")])])] "K"
        { count := 3, locale := some "he", formatNumbers := some false }
      = Except.ok "\u202Bג\u202C"
    ∧ ("ג" : String) ≠ "3" :=
  ⟨by decide, by rfl, by decide⟩

/-- Claim C6 (counterexample): 555 is not a key of the gematria table, yet
formatHebrewNumber renders it as the table rendering of its remainder 55
rather than the plain decimal string 555. -/
theorem c6_counterexample :
    hebrewNumerals 555 = none
    ∧ formatHebrewNumber 555 = "נה"
    ∧ ("נה" : String) ≠ "555" :=
  ⟨by decide, by decide, by decide⟩

lemma jsOrString_getD_empty (o : Option String) : jsOrString o "" = o.getD "" := by
  cases o with
  | none => rfl
  | some s =>
    by_cases hs : s = "" <;> simp [jsOrString, hs]

/-- Claim C6 (amended): for Hebrew the formatter renders 0 as the digit 0,
renders every value 1 to 99 through the fixed gematria table including the
special-cased 15 and 16, renders every value beyond 999 as the plain
decimal string, and renders every value 100 to 999 as the hundreds letter
(kuf, resh, shin or tav for hundreds parts 1 to 4, empty otherwise)
concatenated with the table rendering of the remainder, falling back to
the decimal string only when that concatenation is empty — so a value
missing from the table, such as 555, renders as the remainder letters, not
as its decimal string. -/
theorem c6_hebrew_format_amended :
    formatHebrewNumber 0 = "0"
    ∧ formatHebrewNumber 15 = "טו"
    ∧ formatHebrewNumber 16 = "טז"
    ∧ (∀ k : Fin 99, (hebrewNumerals ((k.val : Int) + 1)).isSome = true ∧
        formatHebrewNumber ((k.val : Int) + 1) = (hebrewNumerals ((k.val : Int) + 1)).getD "")
    ∧ (∀ n : Int, 999 < n → formatHebrewNumber n = toString n)
    ∧ (∀ n : Int, 100 ≤ n → n ≤ 999 →
        formatHebrewNumber n =
          (let hundredsLetter : String :=
            if n / 100 = 1 then "ק" else if n / 100 = 2 then "ר"
            else if n / 100 = 3 then "ש" else if n / 100 = 4 then "ת" else ""
          let remLetters : String :=
            if n % 100 = 0 then "" else (hebrewNumerals (n % 100)).getD ""
          if hundredsLetter ++ remLetters = "" then toString n
          else hundredsLetter ++ remLetters)) := by
  refine ⟨by decide, by decide, by decide, by decide, ?_, ?_⟩
  · intro n hn
    unfold formatHebrewNumber
    rw [if_neg (by omega), if_neg (by omega), if_neg (by omega)]
  · intro n h1 h2
    unfold formatHebrewNumber
    rw [if_neg (by omega), if_neg (by omega), if_pos (by omega : n ≤ 999)]
    simp only []
    have hhl : (if n / 100 > 0 then jsOrString (hebrewNumerals (n / 100 * 100)) "" else "")
        = (if n / 100 = 1 then "ק" else if n / 100 = 2 then "ר" else if n / 100 = 3 then "ש"
           else if n / 100 = 4 then "ת" else "") := by
      have h9 : n / 100 = 1 ∨ n / 100 = 2 ∨ n / 100 = 3 ∨ n / 100 = 4 ∨ n / 100 = 5
          ∨ n / 100 = 6 ∨ n / 100 = 7 ∨ n / 100 = 8 ∨ n / 100 = 9 := by omega
      rcases h9 with hq | hq | hq | hq | hq | hq | hq | hq | hq <;> rw [hq] <;> decide
    have hrl : (if n % 100 > 0 then jsOrString (hebrewNumerals (n % 100)) "" else "")
        = (if n % 100 = 0 then "" else (hebrewNumerals (n % 100)).getD "") := by
      by_cases hr : n % 100 = 0
      · rw [hr]
        decide
      · rw [if_pos (by omega : n % 100 > 0), if_neg hr]
        exact jsOrString_getD_empty (hebrewNumerals (n % 100))
    rw [hhl, hrl]

/-- Claim C6 (witness for the amended theorem): the beyond-999 branch at
1000 and the composition branch at 123 (kuf kaf gimel). -/
theorem c6_witness :
    formatHebrewNumber 1000 = "1000" ∧ formatHebrewNumber 123 = "קכג" := by
  constructor
  · have h := c6_hebrew_format_amended.2.2.2.2.1 1000 (by omega)
    simpa using h
  · have h := c6_hebrew_format_amended.2.2.2.2.2 123 (by omega) (by omega)
    rw [h]
    decide

/-- Claim C8 (counterexample): the LEFT-TO-RIGHT MARK 200E is a
bidirectional control character, but containsRTLText does not detect it. -/
theorem c8_counterexample : containsRTLText "\u200E" = false := by decide

/-- Claim C8 (amended): containsRTLText returns true for every text
containing a character of the Hebrew or Arabic script ranges of RTL_REGEX
or one of the six RTL-side bidirectional controls it lists (200F, 202B,
202E, 2067, 2068, 2069), and returns false on every text built only from
the five LTR-side controls 200E, 202A, 202C, 202D and 2066, which it does
not detect. -/
theorem c8_rtl_side_controls_detected :
    (∀ (text : String) (c : Char), c ∈ text.data →
      ((0x0590 ≤ c.toNat ∧ c.toNat ≤ 0x05FF) ∨ (0x0600 ≤ c.toNat ∧ c.toNat ≤ 0x06FF)
        ∨ (0x0750 ≤ c.toNat ∧ c.toNat ≤ 0x077F) ∨ (0x08A0 ≤ c.toNat ∧ c.toNat ≤ 0x08FF)
        ∨ (0xFB50 ≤ c.toNat ∧ c.toNat ≤ 0xFDFF) ∨ (0xFE70 ≤ c.toNat ∧ c.toNat ≤ 0xFEFF)
        ∨ c = '\u200F' ∨ c = '\u202B' ∨ c = '\u202E'
        ∨ c = '\u2067' ∨ c = '\u2068' ∨ c = '\u2069') →
      containsRTLText text = true)
    ∧ (∀ text : String,
        (∀ c ∈ text.data, c = '\u200E' ∨ c = '\u202A' ∨ c = '\u202C'
          ∨ c = '\u202D' ∨ c = '\u2066') →
        containsRTLText text = false) := by
  constructor
  · intro text c hmem hc
    unfold containsRTLText
    rw [if_neg]
    · refine List.any_eq_true.mpr ⟨c, hmem, ?_⟩
      simpa [isRTLChar, or_assoc] using hc
    · intro h
      rw [h] at hmem
      simp at hmem
  · intro text hall
    unfold containsRTLText
    by_cases h : text = ""
    · rw [if_pos h]
    · rw [if_neg h]
      refine List.any_eq_false.mpr ?_
      intro c hmem
      rcases hall c hmem with hc | hc | hc | hc | hc <;> subst hc <;> decide

/-- Claim C8 (witness): a Hebrew script letter is detected through the
script-range clause, and a text made of all five LTR-side controls is not
detected. -/
theorem c8_witness :
    containsRTLText "ש" = true
    ∧ containsRTLText "\u200E\u202A\u202C\u202D\u2066" = false := by
  constructor
  · exact c8_rtl_side_controls_detected.1 "ש" 'ש' (by decide) (Or.inl (by decide))
  · exact c8_rtl_side_controls_detected.2 "\u200E\u202A\u202C\u202D\u2066" (by decide)

/-- Claim C9: stripping directional markers after wrapping with the rtl
direction is the identity on every non-empty text free of pre-existing
directional control characters. -/
theorem c9_clean_wrap_roundtrip (text : String) (hne : text ≠ "")
    (hclean : ∀ c ∈ text.data, isBidiMarkerChar c = false) :
    cleanDirectionalMarkers (wrapWithDirectionalMarkers text "rtl") = text := by
  have hwrap : wrapWithDirectionalMarkers text "rtl" = "\u200F" ++ text := by
    unfold wrapWithDirectionalMarkers
    have h1 : ¬(("rtl" : String) = "auto" ∨ text = "") := by
      rintro (h | h)
      · exact absurd h (by decide)
      · exact hne h
    rw [if_neg h1, if_neg (by decide), if_pos rfl]
  have hdata : ("\u200F" ++ text).data = '\u200F' :: text.data := by
    rw [string_data_append]
    rfl
  rw [hwrap]
  unfold cleanDirectionalMarkers
  rw [if_neg]
  · rw [hdata]
    rw [List.filter_cons_of_neg (by decide)]
    rw [List.filter_eq_self.mpr (by intro a ha; simp [hclean a ha])]
  · intro h
    have := congrArg String.data h
    rw [hdata] at this
    simp at this

/-- Claim C9 (witness): the round trip at a concrete Hebrew word. -/
theorem c9_witness :
    cleanDirectionalMarkers (wrapWithDirectionalMarkers "שלום" "rtl") = "שלום" :=
  c9_clean_wrap_roundtrip "שלום" (by decide) (by decide)

lemma chooseTemplate_isSome (rule : List (String × String)) (keys : List String)
    (h : truthyLookup rule "other" = true) : ∃ t, chooseTemplate rule keys = some t := by
  cases hf : keys.find? (fun k => truthyLookup rule k) with
  | none =>
    have h2 : chooseTemplate rule keys = lookupAssoc rule "other" := by
      unfold chooseTemplate
      rw [hf]
    unfold truthyLookup at h
    cases hl : lookupAssoc rule "other" with
    | none => rw [hl] at h; simp at h
    | some v => exact ⟨v, by rw [h2, hl]⟩
  | some k =>
    have h2 : chooseTemplate rule keys = lookupAssoc rule k := by
      unfold chooseTemplate
      rw [hf]
    have hk := List.find?_some hf
    unfold truthyLookup at hk
    cases hl : lookupAssoc rule k with
    | none => rw [hl] at hk; simp at hk
    | some v => exact ⟨v, by rw [h2, hl]⟩

lemma processRTL_ok (intl : Int → String → String) (key : String) (count : Int)
    (locale : String) (rule : List (String × String)) (params : List (String × JsVal))
    (udm : Bool) (customRule : Option (Int → String))
    (h : truthyLookup rule "other" = true) :
    ∃ r, processRTLPluralization intl key count locale rule params udm customRule
      = Except.ok r := by
  obtain ⟨t, ht⟩ := chooseTemplate_isSome rule
    (categoryKeys (match customRule with
      | some rule2 => rule2 count
      | none => getPluralCategory count locale)) h
  simp only [processRTLPluralization]
  rw [ht]
  exact ⟨_, rfl⟩

lemma getTranslationValue_default_ok (store : TranslationStore) (key locale : String)
    (uf : Bool) :
    ∃ e, getTranslationValue defaultConfig store key locale uf = Except.ok e := by
  unfold getTranslationValue translationFallbackStep fallbackStrategyResult
  repeat' split
  all_goals first
    | exact ⟨_, rfl⟩
    | (rename_i hthrow; exact absurd hthrow (by decide))

lemma except_bind_ok {α β : Type} (a : α) (f : α → Except String β) :
    (do let x ← Except.ok a; f x) = f a := rfl

lemma validate_true_truthy (rule : List (String × String))
    (h : validatePluralRule rule = true) : truthyLookup rule "other" = true := by
  unfold validatePluralRule at h
  by_cases h1 : truthyLookup rule "other" = false
  · rw [if_pos h1] at h
    exact absurd h (by decide)
  · simpa using h1

lemma translatePlural_default_ok (intl : Int → String → String)
    (store : TranslationStore) (key : String) (count : Int) (locale : String)
    (params : List (String × JsVal)) :
    ∃ s, translatePlural defaultConfig intl store key count locale params
      = Except.ok s := by
  obtain ⟨e, he⟩ := getTranslationValue_default_ok store key locale true
  simp only [translatePlural, translatePluralWithOptions, Option.getD_some]
  rw [if_neg (by decide)]
  unfold getPluralTranslation
  rw [he]
  rw [except_bind_ok]
  cases e with
  | str s => exact ⟨_, rfl⟩
  | obj rule =>
    simp only []
    by_cases hv : validatePluralRule rule = false
    · rw [if_pos ⟨by decide, hv⟩]
      exact ⟨_, rfl⟩
    · rw [if_neg (by intro hc; exact hv hc.2)]
      have htr := validate_true_truthy rule (by simpa using hv)
      obtain ⟨r, hr⟩ := processRTL_ok intl key count locale rule params
        defaultConfig.pluralization.useDirectionalMarkers none htr
      rw [hr]
      exact ⟨_, rfl⟩

/-- Claim C1 (counterexample): with a category map lacking the other key,
processRTLPluralization throws a TypeError once the resolved category has
no alias in the map, and translatePlural propagates the throw when rule
validation is disabled. -/
theorem c1_counterexample :
    processRTLPluralization intlDecimalStub "K" 5 "en" [("one", "1 item")] [] true none
      = Except.error tyErrUndefinedReplace
    ∧ translatePlural { pluralization := { validatePluralRules := false } } intlDecimalStub
        [("en", [("K", TransEntry.obj [("one", "1 item")])])] "K" 5 "en" []
      = Except.error tyErrUndefinedReplace :=
  ⟨by rfl, by rfl⟩

/-- Claim C1 (amended): the engine never throws provided the category map
has a truthy other template (as rule validation guarantees on the
translatePlural path of the default configuration) and caller parameter
keys are plain word characters; under those provisos both
processRTLPluralization and translatePlural return a result for every
entry, count, locale, params and marker setting. -/
theorem c1_no_throw_amended (intl : Int → String → String) (key : String) (count : Int)
    (locale : String) (rule : List (String × String)) (params : List (String × JsVal))
    (udm : Bool) (customRule : Option (Int → String)) (store : TranslationStore)
    (key2 : String) (count2 : Int) (locale2 : String) (params2 : List (String × JsVal))
    (hother : truthyLookup rule "other" = true)
    (hkeys : ∀ p ∈ params, p.1.data.all isWordChar = true)
    (hkeys2 : ∀ p ∈ params2, p.1.data.all isWordChar = true) :
    (∃ r, processRTLPluralization intl key count locale rule params udm customRule
        = Except.ok r)
    ∧ (∃ s, translatePlural defaultConfig intl store key2 count2 locale2 params2
        = Except.ok s) :=
  ⟨processRTL_ok intl key count locale rule params udm customRule hother,
   translatePlural_default_ok intl store key2 count2 locale2 params2⟩

/-- Claim C1 (witness for the amended theorem): a concrete valid entry and
a concrete store both succeed. -/
theorem c1_witness :
    (truthyLookup [("other", "x files")] "other" = true)
    ∧ (∃ r, processRTLPluralization intlDecimalStub "K" 4 "he" [("other", "x files")] []
        true none = Except.ok r)
    ∧ (∃ s, translatePlural defaultConfig intlDecimalStub
        [("en", [("K", TransEntry.str "hello")])] "K" 2 "en" [] = Except.ok s) := by
  have h := c1_no_throw_amended intlDecimalStub "K" 4 "he" [("other", "x files")] []
    true none [("en", [("K", TransEntry.str "hello")])] "K" 2 "en" []
    (by decide) (by intro p hp; simp at hp) (by intro p hp; simp at hp)
  exact ⟨by decide, h.1, h.2⟩

/-- Claim C3: for the locale ar and every locale of the ar-region form, the
plural category resolver follows the Arabic-family table: zero at 0, one at
1, two at 2, few on 3 to 10, many on 11 to 99 and other everywhere else,
negative counts included. -/
theorem c3_arabic_family_categories (locale : String)
    (h : locale = "ar" ∨ ∃ r, locale = "ar-" ++ r) (count : Int) :
    getPluralCategory count locale =
      (if count = 0 then "zero"
       else if count = 1 then "one"
       else if count = 2 then "two"
       else if 3 ≤ count ∧ count ≤ 10 then "few"
       else if 11 ≤ count ∧ count ≤ 99 then "many"
       else "other") := by
  have hfn : (getPluralConfig locale).pluralFunction = arabicFamilyPluralFunction := by
    rcases h with h | ⟨r, h⟩
    · subst h; rfl
    · subst h
      by_cases hMA : r = "MA"
      · subst hMA
        have h5 : ("ar-" ++ "MA" : String) = "ar-MA" := by decide
        rw [h5]
        rfl
      · have hdata : ("ar-" ++ r).data = 'a' :: 'r' :: '-' :: r.data := by
          rw [string_data_append]; rfl
        have hne1 : ("ar" : String) ≠ "ar-" ++ r := by
          intro hh
          have := congrArg String.data hh
          rw [hdata] at this
          simp at this
        have hne2 : ("ar-MA" : String) ≠ "ar-" ++ r := by
          intro hh
          apply hMA
          have hd := congrArg String.data hh
          rw [hdata] at hd
          have hd2 : (['a', 'r', '-', 'M', 'A'] : List Char) = 'a' :: 'r' :: '-' :: r.data := hd
          simp at hd2
          exact string_eq_of_data r "MA" (by rw [← hd2])
        have hne3 : ("he" : String) ≠ "ar-" ++ r := by
          intro hh
          have := congrArg String.data hh
          rw [hdata] at this
          simp at this
        have hne4 : ("fa" : String) ≠ "ar-" ++ r := by
          intro hh
          have := congrArg String.data hh
          rw [hdata] at this
          simp at this
        have hne5 : ("ur" : String) ≠ "ar-" ++ r := by
          intro hh
          have := congrArg String.data hh
          rw [hdata] at this
          simp at this
        have hmiss : lookupAssoc RTL_PLURAL_CONFIGS ("ar-" ++ r) = none := by
          simp [RTL_PLURAL_CONFIGS, lookupAssoc, hne1, hne2, hne3, hne4, hne5]
        have hbase : baseLocale ("ar-" ++ r) = "ar" := by
          unfold baseLocale
          rw [hdata]
          rfl
        unfold getPluralConfig
        rw [hmiss, hbase]
        rfl
  unfold getPluralCategory
  rw [hfn]
  rfl

/-- Claim C3 (witness): the locale ar-SA at count 7 resolves through the
base-prefix tier to the category few. -/
theorem c3_witness :
    (("ar-SA" : String) = "ar" ∨ ∃ r, ("ar-SA" : String) = "ar-" ++ r)
    ∧ getPluralCategory 7 "ar-SA" = "few" := by
  have h : ("ar-SA" : String) = "ar" ∨ ∃ r, ("ar-SA" : String) = "ar-" ++ r :=
    Or.inr ⟨"SA", by decide⟩
  refine ⟨h, ?_⟩
  rw [c3_arabic_family_categories "ar-SA" h 7]
  decide

/-- Claim C5 (counterexample): with markers enabled on an RTL locale the
final text is the digit-embedded interpolation wrapped in the RLE and PDF
pair 202B and 202C, not the text with a RIGHT-TO-LEFT MARK 200F
prepended. -/
theorem c5_counterexample :
    (processRTLPluralization intlDecimalStub "K" 1000 "he"
        [("other", "$\x7bcount\x7d files")] [] true none).map (fun r => r.text)
      = Except.ok "\u202B\u202A1000\u202C files\u202C"
    ∧ ("\u202B\u202A1000\u202C files\u202C" : String) ≠ "\u200F" ++ "\u202A1000\u202C files" :=
  ⟨by rfl, by decide⟩

/-- Claim C5 (amended): for an RTL locale whose configuration enables
markers and an entry with a truthy other template, the final text equals
the interpolated template with every maximal ASCII digit run wrapped in the
202A and 202C pair and the whole string then wrapped in the 202B and 202C
pair, rather than getting the 200F mark prepended. -/
theorem c5_rle_wrapping (intl : Int → String → String) (key : String) (count : Int)
    (locale : String) (rule : List (String × String)) (params : List (String × JsVal))
    (customRule : Option (Int → String))
    (hrtl : (getPluralConfig locale).direction = "rtl")
    (hudm : (getPluralConfig locale).useDirectionalMarkers = true)
    (hother : truthyLookup rule "other" = true) :
    ∃ t, chooseTemplate rule (categoryKeys (match customRule with
        | some rule2 => rule2 count
        | none => getPluralCategory count locale)) = some t
      ∧ (processRTLPluralization intl key count locale rule params true customRule).map
          (fun r => r.text)
        = Except.ok ("\u202B" ++ String.mk (wrapAsciiDigitRuns
            (interpolateEntries (buildFormattedParams intl params count locale) t).data)
            ++ "\u202C") := by
  obtain ⟨t, ht⟩ := chooseTemplate_isSome rule
    (categoryKeys (match customRule with
      | some rule2 => rule2 count
      | none => getPluralCategory count locale)) hother
  refine ⟨t, ht, ?_⟩
  have hmixed : ∀ s, handleMixedContent s locale = String.mk (wrapAsciiDigitRuns s.data) := by
    intro s
    unfold handleMixedContent
    rw [if_neg (by rw [hrtl]; simp)]
  have happly : ∀ s, applyDirectionalMarkers s locale = "\u202B" ++ s ++ "\u202C" := by
    intro s
    unfold applyDirectionalMarkers
    rw [if_neg]
    rintro (hh | hh)
    · rw [hudm] at hh; exact absurd hh (by decide)
    · exact hh hrtl
  simp only [processRTLPluralization]
  rw [ht]
  simp [hrtl, hmixed, happly, Except.map]

/-- Claim C5 (witness for the amended theorem): the Hebrew locale at count
1000 with a digit-bearing template. -/
theorem c5_witness :
    ((getPluralConfig "he").direction = "rtl"
      ∧ (getPluralConfig "he").useDirectionalMarkers = true
      ∧ truthyLookup [("other", "$\x7bcount\x7d files")] "other" = true)
    ∧ (∃ t, chooseTemplate [("other", "$\x7bcount\x7d files")]
          (categoryKeys (getPluralCategory 1000 "he")) = some t
        ∧ (processRTLPluralization intlDecimalStub "K" 1000 "he"
            [("other", "$\x7bcount\x7d files")] [] true none).map (fun r => r.text)
          = Except.ok ("\u202B" ++ String.mk (wrapAsciiDigitRuns
              (interpolateEntries (buildFormattedParams intlDecimalStub [] 1000 "he") t).data)
              ++ "\u202C")) :=
  ⟨⟨by decide, by decide, by decide⟩,
   c5_rle_wrapping intlDecimalStub "K" 1000 "he" [("other", "$\x7bcount\x7d files")] []
     none (by decide) (by decide) (by decide)⟩

/-- Claim C10: a category map containing the other key together with any
key outside the valid category set fails validation, and translatePlural
under the default configuration returns the fallback text of the key
followed by the count in parentheses. -/
theorem c10_extra_key_invalidates_rule (intl : Int → String → String)
    (locale key : String) (count : Int) (params : List (String × JsVal))
    (rule : List (String × String)) (k v w : String)
    (hother : lookupAssoc rule "other" = some w)
    (hk : lookupAssoc rule k = some v)
    (hbad : validCategories.contains k = false) :
    translatePlural defaultConfig intl [(locale, [(key, TransEntry.obj rule)])]
      key count locale params
      = Except.ok (key ++ " (" ++ toString count ++ ")") := by
  have hmem : (k, v) ∈ rule := lookupAssoc_mem rule k v hk
  have hval : validatePluralRule rule = false := by
    unfold validatePluralRule
    by_cases h1 : truthyLookup rule "other" = false
    · rw [if_pos h1]
    · rw [if_neg h1]
      refine List.all_eq_false.mpr ⟨(k, v), hmem, ?_⟩
      simpa using hbad
  have hgv : getTranslationValue defaultConfig [(locale, [(key, TransEntry.obj rule)])]
      key locale true = Except.ok (TransEntry.obj rule) := by
    unfold getTranslationValue
    simp [lookupAssoc, isTruthyEntry, Option.bind]
  simp only [translatePlural, translatePluralWithOptions, Option.getD_some]
  rw [if_neg (by decide)]
  unfold getPluralTranslation
  rw [hgv]
  rw [except_bind_ok]
  simp only []
  rw [if_pos ⟨by decide, hval⟩]
  rfl

/-- Claim C10 (witness): a concrete entry with the other key plus a bogus
key produces the fallback text. -/
theorem c10_witness :
    translatePlural defaultConfig intlDecimalStub
      [("en", [("K", TransEntry.obj [("other", "O"), ("bogus", "B")])])] "K" 5 "en" []
      = Except.ok ("K" ++ " (" ++ toString (5 : Int) ++ ")") :=
  c10_extra_key_invalidates_rule intlDecimalStub "en" "K" 5 []
    [("other", "O"), ("bogus", "B")] "bogus" "B" "O" (by decide) (by decide) (by decide)


lemma parseSegsAux_recover :
    ∀ (fuel : Nat) (acc : List String) (matched cs : List Char)
      (segs : List String) (m rest : List Char),
      parseSegsAux fuel acc matched cs = some (segs, m, rest) →
      m ++ rest = matched ++ cs ∧ ∃ tl, segs = acc ++ tl := by
  intro fuel acc matched cs
  induction fuel, acc, matched, cs using parseSegsAux.induct with
  | case1 t acc0 matched0 rest0 =>
    intro segs m rest h
    simp only [parseSegsAux, Option.some.injEq, Prod.mk.injEq] at h
    obtain ⟨h1, h2, h3⟩ := h
    subst h1
    subst h2
    subst h3
    exact ⟨by simp, [], by simp⟩
  | case2 fuel acc0 matched0 c rest0 hw ih =>
    intro segs m rest h
    rw [parseSegsAux, if_pos hw] at h
    obtain ⟨hrec, tl, htl⟩ := ih segs m rest h
    constructor
    · rw [hrec]
      rw [List.append_assoc]
      rw [show ('.' :: List.takeWhile isWordChar (c :: rest0)) ++ List.dropWhile isWordChar (c :: rest0)
          = '.' :: (c :: rest0) from by
        rw [List.cons_append, List.takeWhile_append_dropWhile]]
    · exact ⟨_, by rw [htl, List.append_assoc]⟩
  | case3 fuel acc0 matched0 c rest0 hw =>
    intro segs m rest h
    rw [parseSegsAux, if_neg hw] at h
    exact absurd h (by simp)
  | case4 t acc0 matched0 cs0 hnb hnd =>
    intro segs m rest h
    rw [parseSegsAux] at h
    · exact absurd h (by simp)
    · exact hnb
    · exact hnd

lemma parsePath_recover (cs : List Char) (segs : List String) (m rest : List Char)
    (h : parsePath cs = some (segs, m, rest)) :
    m ++ rest = cs ∧ ∃ s tl, segs = s :: tl := by
  unfold parsePath at h
  by_cases he : (cs.takeWhile isWordChar).isEmpty = true
  · simp [he] at h
  · have he2 : (cs.takeWhile isWordChar).isEmpty = false := by simpa using he
    simp only [he2, Bool.false_eq_true, if_false] at h
    obtain ⟨h1, tl, htl⟩ := parseSegsAux_recover _ _ _ _ _ _ _ h
    constructor
    · rw [h1, List.takeWhile_append_dropWhile]
    · exact ⟨_, tl, by simpa using htl⟩


lemma resolvePath_single (params : List (String × JsVal)) (k : String) :
    resolvePath params [k] = lookupParam params k := rfl

lemma dropWhile_length_le (p : Char → Bool) (l : List Char) :
    (l.dropWhile p).length ≤ l.length := by
  conv_rhs => rw [← List.takeWhile_append_dropWhile p l]
  rw [List.length_append]
  omega

lemma takeWhile_append_stop (p : Char → Bool) (d : Char) (hd : p d = false)
    (a y : List Char) : (a ++ d :: y).takeWhile p = a.takeWhile p := by
  induction a with
  | nil => simp [List.takeWhile_cons, hd]
  | cons c a ih => cases hpc : p c <;> simp [List.takeWhile_cons, hpc, ih]

lemma dropWhile_append_stop (p : Char → Bool) (d : Char) (hd : p d = false)
    (a y : List Char) : (a ++ d :: y).dropWhile p = a.dropWhile p ++ d :: y := by
  induction a with
  | nil => simp [List.dropWhile_cons, hd]
  | cons c a ih => cases hpc : p c <;> simp [List.dropWhile_cons, hpc, ih]

lemma takeWhile_append_all (p : Char → Bool) (a b : List Char)
    (h : ∀ c ∈ a, p c = true) : (a ++ b).takeWhile p = a ++ b.takeWhile p := by
  induction a with
  | nil => simp
  | cons c a ih =>
    have hc : p c = true := h c (List.mem_cons_self c a)
    simp [List.takeWhile_cons, hc, ih (fun x hx => h x (List.mem_cons_of_mem c hx))]

lemma dropWhile_append_all (p : Char → Bool) (a b : List Char)
    (h : ∀ c ∈ a, p c = true) : (a ++ b).dropWhile p = b.dropWhile p := by
  induction a with
  | nil => simp
  | cons c a ih =>
    have hc : p c = true := h c (List.mem_cons_self c a)
    simp [List.dropWhile_cons, hc, ih (fun x hx => h x (List.mem_cons_of_mem c hx))]

lemma parseSegsAux_nil (f : Nat) (acc : List String) (m : List Char) :
    parseSegsAux f acc m [] = none := by
  cases f <;> rfl

lemma parseSegsAux_closeBrace (f : Nat) (acc : List String) (m rest : List Char) :
    parseSegsAux f acc m ('\x7d' :: rest) = some (acc, m ++ ['\x7d'], rest) := by
  cases f <;> rfl

lemma parseSegsAux_dotNil (f : Nat) (acc : List String) (m : List Char) :
    parseSegsAux f acc m ['.'] = none := by
  cases f <;> rfl

lemma parseSegsAux_dot (k : Nat) (acc : List String) (m : List Char) (c : Char)
    (rest : List Char) :
    parseSegsAux (k + 1) acc m ('.' :: c :: rest)
      = if isWordChar c then
          parseSegsAux k (acc ++ [String.mk ((c :: rest).takeWhile isWordChar)])
            (m ++ '.' :: (c :: rest).takeWhile isWordChar)
            ((c :: rest).dropWhile isWordChar)
        else none := rfl

lemma parseSegsAux_other (f : Nat) (acc : List String) (m : List Char) (c : Char)
    (rest : List Char) (h1 : c ≠ '\x7d') (h2 : c ≠ '.') :
    parseSegsAux f acc m (c :: rest) = none := by
  rw [parseSegsAux.eq_def]
  split <;> simp_all

lemma parseSegsAux_fuel :
    ∀ (n f1 f2 : Nat) (acc : List String) (m cs : List Char),
    cs.length ≤ n → cs.length ≤ f1 → cs.length ≤ f2 →
    parseSegsAux f1 acc m cs = parseSegsAux f2 acc m cs := by
  intro n
  induction n with
  | zero =>
    intro f1 f2 acc m cs h0 h1 h2
    have hnil : cs = [] := List.eq_nil_of_length_eq_zero (Nat.le_zero.mp h0)
    subst hnil
    rw [parseSegsAux_nil, parseSegsAux_nil]
  | succ n ih =>
    intro f1 f2 acc m cs h0 h1 h2
    cases cs with
    | nil => rw [parseSegsAux_nil, parseSegsAux_nil]
    | cons c cs0 =>
      by_cases hcb : c = '\x7d'
      · subst hcb
        rw [parseSegsAux_closeBrace, parseSegsAux_closeBrace]
      · by_cases hcd : c = '.'
        · subst hcd
          cases cs0 with
          | nil => rw [parseSegsAux_dotNil, parseSegsAux_dotNil]
          | cons c1 cs1 =>
            simp only [List.length_cons] at h0 h1 h2
            obtain ⟨f1p, rfl⟩ : ∃ k, f1 = k + 1 := ⟨f1 - 1, by omega⟩
            obtain ⟨f2p, rfl⟩ : ∃ k, f2 = k + 1 := ⟨f2 - 1, by omega⟩
            rw [parseSegsAux_dot, parseSegsAux_dot]
            cases hw : isWordChar c1
            · simp [hw]
            · simp only [hw, if_true]
              have hdw := dropWhile_length_le isWordChar (c1 :: cs1)
              simp only [List.length_cons] at hdw
              exact ih f1p f2p _ _ _ (by omega) (by omega) (by omega)
        · rw [parseSegsAux_other _ _ _ _ _ hcb hcd, parseSegsAux_other _ _ _ _ _ hcb hcd]

lemma parseSegsAux_boundary (y : List Char) :
    ∀ (f : Nat) (acc : List String) (m x : List Char),
    x.length ≤ f →
    parseSegsAux f acc m (x ++ '$' :: y)
      = (parseSegsAux f acc m x).map (fun t => (t.1, t.2.1, t.2.2 ++ '$' :: y)) := by
  intro f
  induction f with
  | zero =>
    intro acc m x h
    have hnil : x = [] := List.eq_nil_of_length_eq_zero (Nat.le_zero.mp h)
    subst hnil
    rw [List.nil_append, parseSegsAux_other _ _ _ _ _ (by decide) (by decide),
      parseSegsAux_nil]
    rfl
  | succ f ih =>
    intro acc m x h
    cases x with
    | nil =>
      rw [List.nil_append, parseSegsAux_other _ _ _ _ _ (by decide) (by decide),
        parseSegsAux_nil]
      rfl
    | cons c x0 =>
      by_cases hcb : c = '\x7d'
      · subst hcb
        rw [List.cons_append, parseSegsAux_closeBrace, parseSegsAux_closeBrace]
        rfl
      · by_cases hcd : c = '.'
        · subst hcd
          cases x0 with
          | nil =>
            rw [parseSegsAux_dotNil]
            rw [show ('.' :: ([] : List Char)) ++ '$' :: y = '.' :: '$' :: y from rfl]
            rw [show parseSegsAux (f + 1) acc m ('.' :: '$' :: y)
                = if isWordChar '$' then
                    parseSegsAux f (acc ++ [String.mk (('$' :: y).takeWhile isWordChar)])
                      (m ++ '.' :: ('$' :: y).takeWhile isWordChar)
                      (('$' :: y).dropWhile isWordChar)
                  else none from parseSegsAux_dot f acc m '$' y]
            rw [if_neg (by decide)]
            rfl
          | cons c1 x1 =>
            rw [show ('.' :: c1 :: x1) ++ '$' :: y = '.' :: c1 :: (x1 ++ '$' :: y) from rfl]
            rw [parseSegsAux_dot, parseSegsAux_dot]
            cases hw : isWordChar c1
            · simp [hw]
            · simp only [hw, if_true]
              rw [show (c1 :: (x1 ++ '$' :: y)) = (c1 :: x1) ++ '$' :: y from rfl]
              rw [takeWhile_append_stop isWordChar '$' (by decide),
                dropWhile_append_stop isWordChar '$' (by decide)]
              simp only [List.length_cons] at h
              have hdw := dropWhile_length_le isWordChar (c1 :: x1)
              simp only [List.length_cons] at hdw
              exact ih _ _ _ (by omega)
        · rw [List.cons_append, parseSegsAux_other _ _ _ _ _ hcb hcd,
            parseSegsAux_other _ _ _ _ _ hcb hcd]
          rfl

lemma parsePath_boundary (x y : List Char) :
    parsePath (x ++ '$' :: y)
      = (parsePath x).map (fun t => (t.1, t.2.1, t.2.2 ++ '$' :: y)) := by
  unfold parsePath
  rw [takeWhile_append_stop isWordChar '$' (by decide),
    dropWhile_append_stop isWordChar '$' (by decide)]
  by_cases he : (x.takeWhile isWordChar).isEmpty
  · simp [he]
  · have he2 : (x.takeWhile isWordChar).isEmpty = false := by simpa using he
    simp only [he2, Bool.false_eq_true, if_false]
    rw [parseSegsAux_boundary y _ _ _ _ (by
      have := dropWhile_length_le isWordChar x
      simp [List.length_append]
      omega)]
    rw [parseSegsAux_fuel (x.dropWhile isWordChar).length (x ++ '$' :: y).length x.length
      _ _ (x.dropWhile isWordChar) (le_refl _)
      (by have := dropWhile_length_le isWordChar x; simp [List.length_append]; omega)
      (dropWhile_length_le isWordChar x)]

lemma renderTail_head_not_word (tl : List String) (rest : List Char) :
    ∃ d r2, renderTail tl ++ '\x7d' :: rest = d :: r2 ∧ isWordChar d = false := by
  cases tl with
  | nil => exact ⟨'\x7d', rest, rfl, by decide⟩
  | cons s tl =>
    exact ⟨'.', s.data ++ renderTail tl ++ '\x7d' :: rest, by simp [renderTail], by decide⟩

lemma parseSegsAux_renderTail :
    ∀ (tl : List String),
      (∀ s ∈ tl, s.data ≠ [] ∧ ∀ c ∈ s.data, isWordChar c = true) →
    ∀ (fuel : Nat) (acc : List String) (m rest : List Char),
      (renderTail tl).length + 1 ≤ fuel →
      parseSegsAux fuel acc m (renderTail tl ++ '\x7d' :: rest)
        = some (acc ++ tl, m ++ renderTail tl ++ ['\x7d'], rest) := by
  intro tl
  induction tl with
  | nil =>
    intro _ fuel acc m rest _
    simp only [renderTail, List.nil_append, List.append_nil]
    rw [parseSegsAux_closeBrace]
  | cons s tl ih =>
    intro hv fuel acc m rest hf
    obtain ⟨hs, hsw⟩ := hv s (List.mem_cons_self s tl)
    obtain ⟨c, cs, hcs⟩ : ∃ c cs, s.data = c :: cs := by
      cases hh : s.data with
      | nil => exact absurd hh hs
      | cons a b => exact ⟨a, b, rfl⟩
    obtain ⟨f, rfl⟩ : ∃ k, fuel = k + 1 := ⟨fuel - 1, by
      simp only [renderTail, List.length_cons, List.length_append] at hf
      omega⟩
    have hshape : renderTail (s :: tl) ++ '\x7d' :: rest
        = '.' :: c :: (cs ++ (renderTail tl ++ '\x7d' :: rest)) := by
      simp [renderTail, hcs]
    rw [hshape, parseSegsAux_dot]
    have hcw : isWordChar c = true := hsw c (by rw [hcs]; exact List.mem_cons_self c cs)
    rw [if_pos hcw]
    obtain ⟨d, r2, hd, hdw⟩ := renderTail_head_not_word tl rest
    have hall : ∀ a ∈ c :: cs, isWordChar a = true := by
      intro a ha
      exact hsw a (by rw [hcs]; exact ha)
    have h1 : (c :: (cs ++ (renderTail tl ++ '\x7d' :: rest))).takeWhile isWordChar
        = c :: cs := by
      rw [show c :: (cs ++ (renderTail tl ++ '\x7d' :: rest))
          = (c :: cs) ++ (renderTail tl ++ '\x7d' :: rest) from rfl,
        takeWhile_append_all isWordChar (c :: cs) _ hall, hd, List.takeWhile_cons, hdw]
      simp
    have h2 : (c :: (cs ++ (renderTail tl ++ '\x7d' :: rest))).dropWhile isWordChar
        = renderTail tl ++ '\x7d' :: rest := by
      rw [show c :: (cs ++ (renderTail tl ++ '\x7d' :: rest))
          = (c :: cs) ++ (renderTail tl ++ '\x7d' :: rest) from rfl,
        dropWhile_append_all isWordChar (c :: cs) _ hall, hd, List.dropWhile_cons, hdw, ← hd]
      simp
    rw [h1, h2]
    rw [ih (fun x hx => hv x (List.mem_cons_of_mem s hx)) f _ _ rest (by
      simp only [renderTail, List.length_cons, List.length_append, hcs] at hf
      omega)]
    rw [← hcs, string_mk_data]
    simp [renderTail, hcs]

lemma parsePath_render (s0 : String) (tl : List String) (rest : List Char)
    (hv : ∀ s ∈ s0 :: tl, s.data ≠ [] ∧ ∀ c ∈ s.data, isWordChar c = true) :
    parsePath (renderDotted (s0 :: tl) ++ '\x7d' :: rest)
      = some (s0 :: tl, renderDotted (s0 :: tl) ++ ['\x7d'], rest) := by
  obtain ⟨hs, hsw⟩ := hv s0 (List.mem_cons_self s0 tl)
  obtain ⟨d, r2, hd, hdw⟩ := renderTail_head_not_word tl rest
  have hshape : renderDotted (s0 :: tl) ++ '\x7d' :: rest
      = s0.data ++ (renderTail tl ++ '\x7d' :: rest) := by
    simp [renderDotted]
  have h1 : (renderDotted (s0 :: tl) ++ '\x7d' :: rest).takeWhile isWordChar = s0.data := by
    rw [hshape, takeWhile_append_all isWordChar _ _ hsw, hd, List.takeWhile_cons, hdw]
    simp
  have h2 : (renderDotted (s0 :: tl) ++ '\x7d' :: rest).dropWhile isWordChar
      = renderTail tl ++ '\x7d' :: rest := by
    rw [hshape, dropWhile_append_all isWordChar _ _ hsw, hd, List.dropWhile_cons, hdw, ← hd]
    simp
  simp only [parsePath]
  rw [h1, h2]
  have hne : s0.data.isEmpty = false := by
    cases hh : s0.data with
    | nil => exact absurd hh hs
    | cons a b => rfl
  rw [hne]
  simp only [Bool.false_eq_true, if_false]
  rw [string_mk_data]
  rw [parseSegsAux_renderTail tl (fun x hx => hv x (List.mem_cons_of_mem s0 hx))
    _ [s0] s0.data rest (by
      simp only [hshape, List.length_append, List.length_cons]
      omega)]
  simp [renderDotted]

lemma tryMatchDollarBrace_nil (params : List (String × JsVal)) :
    tryMatchDollarBrace params [] = none := rfl

lemma tryMatchDollarBrace_not_dollar (params : List (String × JsVal)) (c : Char)
    (cs : List Char) (h : c ≠ '$') : tryMatchDollarBrace params (c :: cs) = none := by
  rw [tryMatchDollarBrace.eq_def]
  split <;> simp_all

lemma tryMatchDollarBrace_singleton (params : List (String × JsVal)) (c : Char) :
    tryMatchDollarBrace params [c] = none := by
  rw [tryMatchDollarBrace.eq_def]
  split <;> simp_all

lemma tryMatchDollarBrace_not_brace (params : List (String × JsVal)) (c : Char)
    (cs : List Char) (h : c ≠ '\x7b') :
    tryMatchDollarBrace params ('$' :: c :: cs) = none := by
  rw [tryMatchDollarBrace.eq_def]
  split <;> simp_all

lemma tryMatchDollarBrace_open (params : List (String × JsVal)) (rest : List Char) :
    tryMatchDollarBrace params ('$' :: '\x7b' :: rest)
      = dollarStep params (parsePath rest) := rfl

lemma dollarStep_some (params : List (String × JsVal)) (segs : List String)
    (m r2 : List Char) :
    dollarStep params (some (segs, m, r2))
      = match resolvePath params segs with
        | JsVal.undef => some ('$' :: '\x7b' :: m, r2)
        | v => some ((jsString v).data, r2) := rfl

lemma tryMatchDollarBrace_boundary (params : List (String × JsVal)) (x y : List Char)
    (hx : x ≠ []) :
    tryMatchDollarBrace params (x ++ '$' :: y)
      = (tryMatchDollarBrace params x).map (fun p => (p.1, p.2 ++ '$' :: y)) := by
  rcases x with _ | ⟨c, x0⟩
  · exact absurd rfl hx
  by_cases hc : c = '$'
  · subst hc
    rcases x0 with _ | ⟨d, x1⟩
    · rw [List.cons_append, List.nil_append,
        tryMatchDollarBrace_not_brace _ _ _ (by decide), tryMatchDollarBrace_singleton]
      rfl
    by_cases hd : d = '\x7b'
    · subst hd
      rw [List.cons_append, List.cons_append, tryMatchDollarBrace_open,
        tryMatchDollarBrace_open, parsePath_boundary]
      cases hp : parsePath x1 with
      | none => rfl
      | some t =>
        obtain ⟨segs, m, r2⟩ := t
        simp only [Option.map_some']
        rw [dollarStep_some, dollarStep_some]
        cases hr : resolvePath params segs <;> rfl
    · rw [List.cons_append, List.cons_append, tryMatchDollarBrace_not_brace _ _ _ hd,
        tryMatchDollarBrace_not_brace _ _ _ hd]
      rfl
  · rw [List.cons_append, tryMatchDollarBrace_not_dollar _ _ _ hc,
      tryMatchDollarBrace_not_dollar _ _ _ hc]
    rfl

lemma tryMatchDollarBrace_chunk (params : List (String × JsVal)) (s0 : String)
    (tl : List String) (rest : List Char)
    (hv : ∀ s ∈ s0 :: tl, s.data ≠ [] ∧ ∀ c ∈ s.data, isWordChar c = true)
    (hundef : resolvePath params (s0 :: tl) = JsVal.undef) :
    tryMatchDollarBrace params (dollarChunk (s0 :: tl) ++ rest)
      = some (dollarChunk (s0 :: tl), rest) := by
  have hshape : dollarChunk (s0 :: tl) ++ rest
      = '$' :: '\x7b' :: (renderDotted (s0 :: tl) ++ '\x7d' :: rest) := by
    simp [dollarChunk]
  rw [hshape, tryMatchDollarBrace_open, parsePath_render s0 tl rest hv, dollarStep_some,
    hundef]
  rfl

lemma tryMatchDollarBrace_rest_len (params : List (String × JsVal)) (cs out rest : List Char)
    (h : tryMatchDollarBrace params cs = some (out, rest)) :
    rest.length + 2 ≤ cs.length := by
  rw [tryMatchDollarBrace.eq_def] at h
  split at h
  · rename_i rest0
    split at h
    · rename_i segs m r2 hp
      obtain ⟨h1, -⟩ := parsePath_recover rest0 segs m r2 hp
      have hlen : m.length + r2.length = rest0.length := by
        have := congrArg List.length h1
        simpa [List.length_append] using this
      split at h <;>
        (simp only [Option.some.injEq, Prod.mk.injEq] at h; obtain ⟨-, hb⟩ := h; subst hb;
          simp only [List.length_cons]; omega)
    · exact absurd h (by simp)
  · exact absurd h (by simp)

lemma scanDollarBraceAux_nil (params : List (String × JsVal)) (f : Nat) :
    scanDollarBraceAux params f [] = [] := by
  cases f <;> rfl

lemma scanDollarBraceAux_step (params : List (String × JsVal)) (f : Nat) (c : Char)
    (cs : List Char) :
    scanDollarBraceAux params (f + 1) (c :: cs)
      = match tryMatchDollarBrace params (c :: cs) with
        | some (out, rest) => out ++ scanDollarBraceAux params f rest
        | none => c :: scanDollarBraceAux params f cs := rfl

lemma scanDollarBraceAux_fuel (params : List (String × JsVal)) :
    ∀ (n f1 f2 : Nat) (cs : List Char),
    cs.length ≤ n → cs.length ≤ f1 → cs.length ≤ f2 →
    scanDollarBraceAux params f1 cs = scanDollarBraceAux params f2 cs := by
  intro n
  induction n with
  | zero =>
    intro f1 f2 cs h0 _ _
    have hnil : cs = [] := List.eq_nil_of_length_eq_zero (Nat.le_zero.mp h0)
    subst hnil
    rw [scanDollarBraceAux_nil, scanDollarBraceAux_nil]
  | succ n ih =>
    intro f1 f2 cs h0 h1 h2
    cases cs with
    | nil => rw [scanDollarBraceAux_nil, scanDollarBraceAux_nil]
    | cons c cs0 =>
      simp only [List.length_cons] at h0 h1 h2
      obtain ⟨a, rfl⟩ : ∃ k, f1 = k + 1 := ⟨f1 - 1, by omega⟩
      obtain ⟨b, rfl⟩ : ∃ k, f2 = k + 1 := ⟨f2 - 1, by omega⟩
      rw [scanDollarBraceAux_step, scanDollarBraceAux_step]
      cases h : tryMatchDollarBrace params (c :: cs0) with
      | none =>
        simp only []
        rw [ih a b cs0 (by omega) (by omega) (by omega)]
      | some p =>
        obtain ⟨out, rest⟩ := p
        have hr := tryMatchDollarBrace_rest_len params (c :: cs0) out rest h
        simp only [List.length_cons] at hr
        simp only []
        rw [ih a b rest (by omega) (by omega) (by omega)]

lemma scanDollarBrace_chunkBase (params : List (String × JsVal)) (s0 : String)
    (tl : List String) (B : List Char)
    (hv : ∀ s ∈ s0 :: tl, s.data ≠ [] ∧ ∀ c ∈ s.data, isWordChar c = true)
    (hundef : resolvePath params (s0 :: tl) = JsVal.undef) :
    scanDollarBraceFull params (dollarChunk (s0 :: tl) ++ B)
      = dollarChunk (s0 :: tl) ++ scanDollarBraceFull params B := by
  have hshape : dollarChunk (s0 :: tl) ++ B
      = '$' :: (('\x7b' :: renderDotted (s0 :: tl) ++ ['\x7d']) ++ B) := by
    simp [dollarChunk]
  have htm : tryMatchDollarBrace params
      ('$' :: (('\x7b' :: renderDotted (s0 :: tl) ++ ['\x7d']) ++ B))
      = some (dollarChunk (s0 :: tl), B) := by
    rw [← hshape]
    exact tryMatchDollarBrace_chunk params s0 tl B hv hundef
  unfold scanDollarBraceFull
  rw [hshape]
  simp only [List.length_cons]
  rw [scanDollarBraceAux_step]
  rw [htm]
  simp only []
  rw [scanDollarBraceAux_fuel params B.length _ B.length B (le_refl _)
    (by simp [List.length_append]; omega) (le_refl _)]

lemma scanDollarBrace_splice (params : List (String × JsVal)) (s0 : String)
    (tl : List String)
    (hv : ∀ s ∈ s0 :: tl, s.data ≠ [] ∧ ∀ c ∈ s.data, isWordChar c = true)
    (hundef : resolvePath params (s0 :: tl) = JsVal.undef) :
    ∀ (n : Nat) (A B : List Char), A.length ≤ n →
    scanDollarBraceFull params (A ++ (dollarChunk (s0 :: tl) ++ B))
      = scanDollarBraceFull params A ++ dollarChunk (s0 :: tl)
        ++ scanDollarBraceFull params B := by
  intro n
  induction n with
  | zero =>
    intro A B h0
    have hnil : A = [] := List.eq_nil_of_length_eq_zero (Nat.le_zero.mp h0)
    subst hnil
    rw [List.nil_append, scanDollarBrace_chunkBase params s0 tl B hv hundef]
    simp [scanDollarBraceFull, scanDollarBraceAux_nil]
  | succ n ih =>
    intro A B h0
    cases A with
    | nil =>
      rw [List.nil_append, scanDollarBrace_chunkBase params s0 tl B hv hundef]
      simp [scanDollarBraceFull, scanDollarBraceAux_nil]
    | cons c A0 =>
      have hshape : (c :: A0) ++ (dollarChunk (s0 :: tl) ++ B)
          = c :: (A0 ++ (dollarChunk (s0 :: tl) ++ B)) := rfl
      have hsep : (c :: A0) ++ (dollarChunk (s0 :: tl) ++ B)
          = (c :: A0) ++ '$' :: (('\x7b' :: renderDotted (s0 :: tl) ++ ['\x7d']) ++ B) := by
        simp [dollarChunk]
      have hb := tryMatchDollarBrace_boundary params (c :: A0)
        (('\x7b' :: renderDotted (s0 :: tl) ++ ['\x7d']) ++ B) (by simp)
      rw [← hsep] at hb
      simp only [List.length_cons] at h0
      unfold scanDollarBraceFull
      rw [hshape]
      simp only [List.length_cons]
      rw [scanDollarBraceAux_step]
      rw [show tryMatchDollarBrace params (c :: (A0 ++ (dollarChunk (s0 :: tl) ++ B)))
          = tryMatchDollarBrace params ((c :: A0) ++ (dollarChunk (s0 :: tl) ++ B)) from rfl,
        hb]
      cases h : tryMatchDollarBrace params (c :: A0) with
      | none =>
        simp only [Option.map_none']
        have hfull : scanDollarBraceAux params (A0 ++ (dollarChunk (s0 :: tl) ++ B)).length
            (A0 ++ (dollarChunk (s0 :: tl) ++ B))
            = scanDollarBraceFull params (A0 ++ (dollarChunk (s0 :: tl) ++ B)) := rfl
        rw [hfull, ih A0 B (by omega)]
        have hA : scanDollarBraceAux params (A0.length + 1) (c :: A0)
            = c :: scanDollarBraceAux params A0.length A0 := by
          rw [scanDollarBraceAux_step, h]
        rw [hA]
        rfl
      | some p =>
        obtain ⟨out, rest⟩ := p
        simp only [Option.map_some']
        have hr := tryMatchDollarBrace_rest_len params (c :: A0) out rest h
        simp only [List.length_cons] at hr
        have hrw : rest ++ '$' :: (('\x7b' :: renderDotted (s0 :: tl) ++ ['\x7d']) ++ B)
            = rest ++ (dollarChunk (s0 :: tl) ++ B) := by
          simp [dollarChunk]
        rw [hrw]
        rw [scanDollarBraceAux_fuel params (rest ++ (dollarChunk (s0 :: tl) ++ B)).length
          _ (rest ++ (dollarChunk (s0 :: tl) ++ B)).length _ (le_refl _)
          (by simp [List.length_append]; omega) (le_refl _)]
        rw [show scanDollarBraceAux params (rest ++ (dollarChunk (s0 :: tl) ++ B)).length
            (rest ++ (dollarChunk (s0 :: tl) ++ B))
            = scanDollarBraceFull params (rest ++ (dollarChunk (s0 :: tl) ++ B)) from rfl]
        rw [ih rest B (by omega)]
        have hA : scanDollarBraceAux params (A0.length + 1) (c :: A0)
            = out ++ scanDollarBraceAux params A0.length rest := by
          rw [scanDollarBraceAux_step, h]
        rw [hA]
        rw [scanDollarBraceAux_fuel params rest.length A0.length rest.length rest (le_refl _)
          (by omega) (le_refl _)]
        rw [show scanDollarBraceAux params rest.length rest
            = scanDollarBraceFull params rest from rfl]
        simp [List.append_assoc, scanDollarBraceFull]

lemma tryMatchBrace_nil (params : List (String × JsVal)) :
    tryMatchBrace params [] = none := rfl

lemma tryMatchBrace_not_lb (params : List (String × JsVal)) (c : Char) (cs : List Char)
    (h : c ≠ '\x7b') : tryMatchBrace params (c :: cs) = none := by
  rw [tryMatchBrace.eq_def]
  split <;> simp_all

lemma tryMatchBrace_open (params : List (String × JsVal)) (rest : List Char) :
    tryMatchBrace params ('\x7b' :: rest)
      = braceStep params (rest.takeWhile isWordChar) (rest.dropWhile isWordChar) := rfl

lemma braceStep_nil (params : List (String × JsVal)) (run : List Char) :
    braceStep params run [] = none := rfl

lemma braceStep_not_close (params : List (String × JsVal)) (run : List Char) (d : Char)
    (r : List Char) (h : d ≠ '\x7d') : braceStep params run (d :: r) = none := by
  rw [braceStep.eq_def]
  split <;> simp_all

lemma braceStep_close (params : List (String × JsVal)) (run r2 : List Char) :
    braceStep params run ('\x7d' :: r2)
      = if run.isEmpty then none
        else
          match lookupParam params (String.mk run) with
          | JsVal.undef => some ('\x7b' :: run ++ ['\x7d'], r2)
          | v => some ((jsString v).data, r2) := rfl

lemma tryMatchBrace_rest_len (params : List (String × JsVal)) (cs out rest : List Char)
    (h : tryMatchBrace params cs = some (out, rest)) :
    rest.length + 2 ≤ cs.length := by
  rw [tryMatchBrace.eq_def] at h
  split at h
  · rename_i rest0
    split at h
    · rename_i rest2 hdw
      have hlen : rest2.length + 1 ≤ rest0.length := by
        have := dropWhile_length_le isWordChar rest0
        rw [hdw] at this
        simpa using this
      split at h
      · exact absurd h (by simp)
      · split at h <;>
          (simp only [Option.some.injEq, Prod.mk.injEq] at h; obtain ⟨-, hb⟩ := h; subst hb;
            simp only [List.length_cons]; omega)
    · exact absurd h (by simp)
  · exact absurd h (by simp)

lemma tryMatchBrace_boundary (params : List (String × JsVal)) (x y : List Char)
    (hx : x ≠ []) :
    tryMatchBrace params (x ++ '$' :: y)
      = (tryMatchBrace params x).map (fun p => (p.1, p.2 ++ '$' :: y)) := by
  rcases x with _ | ⟨c, x0⟩
  · exact absurd rfl hx
  by_cases hc : c = '\x7b'
  · subst hc
    rw [List.cons_append, tryMatchBrace_open, tryMatchBrace_open,
      takeWhile_append_stop isWordChar '$' (by decide),
      dropWhile_append_stop isWordChar '$' (by decide)]
    cases hdx : x0.dropWhile isWordChar with
    | nil =>
      rw [List.nil_append, braceStep_not_close _ _ _ _ (by decide), braceStep_nil]
      rfl
    | cons d r =>
      by_cases hd : d = '\x7d'
      · subst hd
        rw [List.cons_append, braceStep_close, braceStep_close]
        by_cases he : (x0.takeWhile isWordChar).isEmpty
        · rw [if_pos he, if_pos he]
          rfl
        · rw [if_neg he, if_neg he]
          cases hl : lookupParam params (String.mk (x0.takeWhile isWordChar)) <;> rfl
      · rw [List.cons_append, braceStep_not_close _ _ _ _ hd, braceStep_not_close _ _ _ _ hd]
        rfl
  · rw [List.cons_append, tryMatchBrace_not_lb _ _ _ hc, tryMatchBrace_not_lb _ _ _ hc]
    rfl

lemma tryMatchBrace_chunkSingle (params : List (String × JsVal)) (s0 : String)
    (Y : List Char) (hs : s0.data ≠ []) (hsw : ∀ c ∈ s0.data, isWordChar c = true)
    (hundef : lookupParam params s0 = JsVal.undef) :
    tryMatchBrace params ('\x7b' :: (s0.data ++ '\x7d' :: Y))
      = some ('\x7b' :: s0.data ++ ['\x7d'], Y) := by
  rw [tryMatchBrace_open, takeWhile_append_stop isWordChar '\x7d' (by decide),
    dropWhile_append_stop isWordChar '\x7d' (by decide),
    List.takeWhile_eq_self_iff.mpr hsw, List.dropWhile_eq_nil_iff.mpr hsw,
    List.nil_append, braceStep_close]
  have hne : s0.data.isEmpty = false := by
    cases hh : s0.data with
    | nil => exact absurd hh hs
    | cons a b => rfl
  rw [hne]
  simp only [Bool.false_eq_true, if_false]
  rw [string_mk_data, hundef]

lemma word_ne_lb (c : Char) (h : isWordChar c = true) : c ≠ '\x7b' := by
  intro hc
  subst hc
  exact absurd h (by decide)

lemma renderTail_no_lb (tl : List String)
    (hv : ∀ s ∈ tl, ∀ c ∈ s.data, isWordChar c = true) :
    ∀ c ∈ renderTail tl, c ≠ '\x7b' := by
  induction tl with
  | nil =>
    intro c hc
    simp [renderTail] at hc
  | cons s tl ih =>
    intro c hc
    simp only [renderTail, List.cons_append, List.mem_cons, List.mem_append] at hc
    rcases hc with h | h | h
    · subst h
      decide
    · exact word_ne_lb c (hv s (List.mem_cons_self s tl) c h)
    · exact ih (fun x hx => hv x (List.mem_cons_of_mem s hx)) c h

lemma renderDotted_close_no_lb (s0 : String) (tl : List String)
    (hv : ∀ s ∈ s0 :: tl, s.data ≠ [] ∧ ∀ c ∈ s.data, isWordChar c = true) :
    ∀ c ∈ renderDotted (s0 :: tl) ++ ['\x7d'], c ≠ '\x7b' := by
  intro c hc
  simp only [renderDotted, List.mem_append, List.mem_singleton] at hc
  rcases hc with (h | h) | h
  · exact word_ne_lb c ((hv s0 (List.mem_cons_self s0 tl)).2 c h)
  · exact renderTail_no_lb tl (fun s hs => (hv s (List.mem_cons_of_mem s0 hs)).2) c h
  · subst h
    decide

lemma tryMatchBrace_chunkDotted (params : List (String × JsVal)) (s0 s1 : String)
    (tl : List String) (Y : List Char)
    (hsw : ∀ c ∈ s0.data, isWordChar c = true) :
    tryMatchBrace params ('\x7b' :: (renderDotted (s0 :: s1 :: tl) ++ '\x7d' :: Y))
      = none := by
  rw [tryMatchBrace_open]
  have hshape : renderDotted (s0 :: s1 :: tl) ++ '\x7d' :: Y
      = s0.data ++ ('.' :: (s1.data ++ renderTail tl ++ '\x7d' :: Y)) := by
    simp [renderDotted, renderTail]
  rw [hshape, dropWhile_append_all isWordChar _ _ hsw, List.dropWhile_cons]
  rw [show isWordChar '.' = false from by decide]
  simp only [Bool.false_eq_true, if_false]
  exact braceStep_not_close _ _ _ _ (by decide)

lemma scanBraceAux_nil (params : List (String × JsVal)) (f : Nat) :
    scanBraceAux params f [] = [] := by
  cases f <;> rfl

lemma scanBraceAux_step (params : List (String × JsVal)) (f : Nat) (c : Char)
    (cs : List Char) :
    scanBraceAux params (f + 1) (c :: cs)
      = match tryMatchBrace params (c :: cs) with
        | some (out, rest) => out ++ scanBraceAux params f rest
        | none => c :: scanBraceAux params f cs := rfl

lemma scanBraceAux_fuel (params : List (String × JsVal)) :
    ∀ (n f1 f2 : Nat) (cs : List Char),
    cs.length ≤ n → cs.length ≤ f1 → cs.length ≤ f2 →
    scanBraceAux params f1 cs = scanBraceAux params f2 cs := by
  intro n
  induction n with
  | zero =>
    intro f1 f2 cs h0 _ _
    have hnil : cs = [] := List.eq_nil_of_length_eq_zero (Nat.le_zero.mp h0)
    subst hnil
    rw [scanBraceAux_nil, scanBraceAux_nil]
  | succ n ih =>
    intro f1 f2 cs h0 h1 h2
    cases cs with
    | nil => rw [scanBraceAux_nil, scanBraceAux_nil]
    | cons c cs0 =>
      simp only [List.length_cons] at h0 h1 h2
      obtain ⟨a, rfl⟩ : ∃ k, f1 = k + 1 := ⟨f1 - 1, by omega⟩
      obtain ⟨b, rfl⟩ : ∃ k, f2 = k + 1 := ⟨f2 - 1, by omega⟩
      rw [scanBraceAux_step, scanBraceAux_step]
      cases h : tryMatchBrace params (c :: cs0) with
      | none =>
        simp only []
        rw [ih a b cs0 (by omega) (by omega) (by omega)]
      | some p =>
        obtain ⟨out, rest⟩ := p
        have hr := tryMatchBrace_rest_len params (c :: cs0) out rest h
        simp only [List.length_cons] at hr
        simp only []
        rw [ih a b rest (by omega) (by omega) (by omega)]

lemma scanBrace_lit (params : List (String × JsVal)) :
    ∀ (P Y : List Char), (∀ c ∈ P, c ≠ '\x7b') →
    scanBraceFull params (P ++ Y) = P ++ scanBraceFull params Y := by
  intro P
  induction P with
  | nil =>
    intro Y _
    simp
  | cons c P0 ih =>
    intro Y hP
    unfold scanBraceFull
    rw [List.cons_append]
    simp only [List.length_cons]
    rw [scanBraceAux_step, tryMatchBrace_not_lb _ _ _ (hP c (List.mem_cons_self c P0))]
    simp only []
    rw [show scanBraceAux params (P0 ++ Y).length (P0 ++ Y)
        = scanBraceFull params (P0 ++ Y) from rfl,
      ih Y (fun x hx => hP x (List.mem_cons_of_mem c hx))]
    rfl

lemma scanBrace_chunkBase (params : List (String × JsVal)) (s0 : String)
    (tl : List String) (Y : List Char)
    (hv : ∀ s ∈ s0 :: tl, s.data ≠ [] ∧ ∀ c ∈ s.data, isWordChar c = true)
    (hundef : resolvePath params (s0 :: tl) = JsVal.undef) :
    scanBraceFull params (dollarChunk (s0 :: tl) ++ Y)
      = dollarChunk (s0 :: tl) ++ scanBraceFull params Y := by
  obtain ⟨hs, hsw⟩ := hv s0 (List.mem_cons_self s0 tl)
  cases tl with
  | nil =>
    have hshape : dollarChunk [s0] ++ Y = '$' :: '\x7b' :: (s0.data ++ '\x7d' :: Y) := by
      simp [dollarChunk, renderDotted, renderTail]
    unfold scanBraceFull
    rw [hshape]
    simp only [List.length_cons]
    rw [scanBraceAux_step, tryMatchBrace_not_lb _ _ _ (by decide)]
    simp only []
    rw [scanBraceAux_step, tryMatchBrace_chunkSingle params s0 Y hs hsw (by
      rw [← resolvePath_single]
      exact hundef)]
    simp only []
    rw [scanBraceAux_fuel params Y.length _ Y.length Y (le_refl _)
      (by simp [List.length_append]; omega) (le_refl _)]
    simp [dollarChunk, renderDotted, renderTail, scanBraceFull]
  | cons s1 tl2 =>
    have hshape : dollarChunk (s0 :: s1 :: tl2) ++ Y
        = '$' :: '\x7b' :: (renderDotted (s0 :: s1 :: tl2) ++ '\x7d' :: Y) := by
      simp [dollarChunk]
    unfold scanBraceFull
    rw [hshape]
    simp only [List.length_cons]
    rw [scanBraceAux_step, tryMatchBrace_not_lb _ _ _ (by decide)]
    simp only []
    rw [scanBraceAux_step, tryMatchBrace_chunkDotted params s0 s1 tl2 Y hsw]
    simp only []
    rw [show renderDotted (s0 :: s1 :: tl2) ++ '\x7d' :: Y
        = (renderDotted (s0 :: s1 :: tl2) ++ ['\x7d']) ++ Y from by simp]
    rw [show scanBraceAux params ((renderDotted (s0 :: s1 :: tl2) ++ ['\x7d']) ++ Y).length
        ((renderDotted (s0 :: s1 :: tl2) ++ ['\x7d']) ++ Y)
        = scanBraceFull params ((renderDotted (s0 :: s1 :: tl2) ++ ['\x7d']) ++ Y) from rfl]
    rw [scanBrace_lit params _ Y (renderDotted_close_no_lb s0 (s1 :: tl2) hv)]
    simp [dollarChunk, scanBraceFull]

lemma scanBrace_splice (params : List (String × JsVal)) (s0 : String)
    (tl : List String)
    (hv : ∀ s ∈ s0 :: tl, s.data ≠ [] ∧ ∀ c ∈ s.data, isWordChar c = true)
    (hundef : resolvePath params (s0 :: tl) = JsVal.undef) :
    ∀ (n : Nat) (X Y : List Char), X.length ≤ n →
    scanBraceFull params (X ++ (dollarChunk (s0 :: tl) ++ Y))
      = scanBraceFull params X ++ dollarChunk (s0 :: tl) ++ scanBraceFull params Y := by
  intro n
  induction n with
  | zero =>
    intro X Y h0
    have hnil : X = [] := List.eq_nil_of_length_eq_zero (Nat.le_zero.mp h0)
    subst hnil
    rw [List.nil_append, scanBrace_chunkBase params s0 tl Y hv hundef]
    simp [scanBraceFull, scanBraceAux_nil]
  | succ n ih =>
    intro X Y h0
    cases X with
    | nil =>
      rw [List.nil_append, scanBrace_chunkBase params s0 tl Y hv hundef]
      simp [scanBraceFull, scanBraceAux_nil]
    | cons c X0 =>
      have hshape : (c :: X0) ++ (dollarChunk (s0 :: tl) ++ Y)
          = c :: (X0 ++ (dollarChunk (s0 :: tl) ++ Y)) := rfl
      have hsep : (c :: X0) ++ (dollarChunk (s0 :: tl) ++ Y)
          = (c :: X0) ++ '$' :: (('\x7b' :: renderDotted (s0 :: tl) ++ ['\x7d']) ++ Y) := by
        simp [dollarChunk]
      have hb := tryMatchBrace_boundary params (c :: X0)
        (('\x7b' :: renderDotted (s0 :: tl) ++ ['\x7d']) ++ Y) (by simp)
      rw [← hsep] at hb
      simp only [List.length_cons] at h0
      unfold scanBraceFull
      rw [hshape]
      simp only [List.length_cons]
      rw [scanBraceAux_step]
      rw [show tryMatchBrace params (c :: (X0 ++ (dollarChunk (s0 :: tl) ++ Y)))
          = tryMatchBrace params ((c :: X0) ++ (dollarChunk (s0 :: tl) ++ Y)) from rfl,
        hb]
      cases h : tryMatchBrace params (c :: X0) with
      | none =>
        simp only [Option.map_none']
        rw [show scanBraceAux params (X0 ++ (dollarChunk (s0 :: tl) ++ Y)).length
            (X0 ++ (dollarChunk (s0 :: tl) ++ Y))
            = scanBraceFull params (X0 ++ (dollarChunk (s0 :: tl) ++ Y)) from rfl,
          ih X0 Y (by omega)]
        have hX : scanBraceAux params (X0.length + 1) (c :: X0)
            = c :: scanBraceAux params X0.length X0 := by
          rw [scanBraceAux_step, h]
        rw [hX]
        rfl
      | some p =>
        obtain ⟨out, rest⟩ := p
        simp only [Option.map_some']
        have hr := tryMatchBrace_rest_len params (c :: X0) out rest h
        simp only [List.length_cons] at hr
        have hrw : rest ++ '$' :: (('\x7b' :: renderDotted (s0 :: tl) ++ ['\x7d']) ++ Y)
            = rest ++ (dollarChunk (s0 :: tl) ++ Y) := by
          simp [dollarChunk]
        rw [hrw]
        rw [scanBraceAux_fuel params (rest ++ (dollarChunk (s0 :: tl) ++ Y)).length
          _ (rest ++ (dollarChunk (s0 :: tl) ++ Y)).length _ (le_refl _)
          (by simp [List.length_append]; omega) (le_refl _)]
        rw [show scanBraceAux params (rest ++ (dollarChunk (s0 :: tl) ++ Y)).length
            (rest ++ (dollarChunk (s0 :: tl) ++ Y))
            = scanBraceFull params (rest ++ (dollarChunk (s0 :: tl) ++ Y)) from rfl]
        rw [ih rest Y (by omega)]
        have hX : scanBraceAux params (X0.length + 1) (c :: X0)
            = out ++ scanBraceAux params X0.length rest := by
          rw [scanBraceAux_step, h]
        rw [hX]
        rw [scanBraceAux_fuel params rest.length X0.length rest.length rest (le_refl _)
          (by omega) (le_refl _)]
        rw [show scanBraceAux params rest.length rest = scanBraceFull params rest from rfl]
        simp [List.append_assoc, scanBraceFull]

/-- C7: interpolateParams leaves a dollar-brace placeholder verbatim, in place,
whenever its dotted path resolves to undefined in the given parameter map,
no matter what the surrounding template text is and no matter which other
parameters of the map are bound: the interpolation of the whole template
splits into the interpolation of the text before, the untouched placeholder,
and the interpolation of the text after. -/
theorem c7_unresolved_placeholder_verbatim (params : List (String × JsVal))
    (pre post : String) (s0 : String) (tl : List String)
    (hvalid : ∀ s ∈ s0 :: tl, s.data ≠ [] ∧ ∀ c ∈ s.data, isWordChar c = true)
    (hundef : resolvePath params (s0 :: tl) = JsVal.undef) :
    interpolateParams (pre ++ placeholderString (s0 :: tl) ++ post) params
      = interpolateParams pre params ++ placeholderString (s0 :: tl)
        ++ interpolateParams post params := by
  have hmkdata : ∀ l : List Char, (String.mk l).data = l := fun l => rfl
  have hip : ∀ t : String, interpolateParams t params
      = String.mk (scanBraceFull params (scanDollarBraceFull params t.data)) :=
    fun t => rfl
  have hdata : (pre ++ placeholderString (s0 :: tl) ++ post).data
      = pre.data ++ (dollarChunk (s0 :: tl) ++ post.data) := by
    rw [string_data_append, string_data_append]
    simp [placeholderString, List.append_assoc]
  rw [hip (pre ++ placeholderString (s0 :: tl) ++ post), hdata]
  rw [scanDollarBrace_splice params s0 tl hvalid hundef pre.data.length
    pre.data post.data (le_refl _)]
  rw [List.append_assoc]
  rw [scanBrace_splice params s0 tl hvalid hundef
    (scanDollarBraceFull params pre.data).length
    (scanDollarBraceFull params pre.data) (scanDollarBraceFull params post.data)
    (le_refl _)]
  apply string_eq_of_data
  rw [string_data_append, string_data_append, hip pre, hip post]
  simp [hmkdata, placeholderString, List.append_assoc]

theorem c7_witness :
    interpolateParams "$\x7bgreet\x7d $\x7bname\x7d" [("greet", JsVal.str "hi")]
      = "hi $\x7bname\x7d" := by
  have h : interpolateParams "$\x7bgreet\x7d $\x7bname\x7d" [("greet", JsVal.str "hi")]
      = interpolateParams "$\x7bgreet\x7d " [("greet", JsVal.str "hi")]
        ++ placeholderString ["name"]
        ++ interpolateParams "" [("greet", JsVal.str "hi")] :=
    c7_unresolved_placeholder_verbatim [("greet", JsVal.str "hi")]
      "$\x7bgreet\x7d " "" "name" [] (by decide) rfl
  rw [h]
  rfl

end I18n
